import Mathlib

/-!
Verification development for the BMAD live-board builder
(`scripts/bmad_live_board.py`): a shallow embedding of the status
normalizer, status-table parser, title extractor, story-file parser and
board aggregator, together with theorems settling the specification
claims about them.

Text is modelled as `List Char` (one entry per Unicode code point, which
matches Python's `str`).  The filesystem state a build reads is modelled
by the `FS` structure; file paths are POSIX strings.  Python regular
expressions are modelled by hand-written, equivalent character parsers
(each regex used by the program is deterministic: no backtracking can
change its result, as argued in the comments).  Python `\s`, `\d` and
`str.strip`/`lower`/`title` are modelled for the ASCII range, which is
the range the parsed artifact files use.
-/

abbrev Str := List Char

/-- Python `\s` on the ASCII range: space, tab, newline, vertical tab,
form feed, carriage return.  Also used to model `str.strip()`. -/
def pyIsSpace (c : Char) : Bool :=
  c.toNat = 32 || (9 ≤ c.toNat && c.toNat ≤ 13)

/-- Remove trailing whitespace (Python `str.rstrip()` on ASCII input). -/
def rstripChars : Str → Str
  | [] => []
  | c :: rest =>
    let r := rstripChars rest
    if r.isEmpty && pyIsSpace c then [] else c :: r

/-- Python `str.strip()` on ASCII input. -/
def pyStrip (l : Str) : Str :=
  rstripChars (l.dropWhile pyIsSpace)

/-- ASCII lowercase of one character (Python `str.lower()`). -/
def lowerChar (c : Char) : Char :=
  if 65 ≤ c.toNat && c.toNat ≤ 90 then Char.ofNat (c.toNat + 32) else c

/-- ASCII uppercase of one character. -/
def upperChar (c : Char) : Char :=
  if 97 ≤ c.toNat && c.toNat ≤ 122 then Char.ofNat (c.toNat - 32) else c

/-- Python `str.lower()` on ASCII input. -/
def pyLower (l : Str) : Str := l.map lowerChar

/-- Boolean "starts with" on character lists. -/
def leadsWith : Str → Str → Bool
  | [], _ => true
  | _, [] => false
  | a :: as, b :: bs => a = b && leadsWith as bs

/-- Drop a literal leading pattern, or fail. -/
def chopLead (pre l : Str) : Option Str :=
  if leadsWith pre l then some (l.drop pre.length) else none

/-- Python `str.splitlines()` restricted to the LF line terminator
(the artifact files use LF): split on every newline, dropping the empty
fragment a trailing newline would produce. -/
def splitOnNl : Str → List Str
  | [] => [[]]
  | c :: rest =>
    let r := splitOnNl rest
    if c = '\n' then [] :: r
    else
      match r with
      | [] => [[c]]
      | h :: t => (c :: h) :: t

/-- Python `str.splitlines()` (LF model): empty string gives no lines,
and a final newline does not open an extra empty line. -/
def pySplitlines (l : Str) : List Str :=
  if l.isEmpty then []
  else if l.getLast? = some '\n' then (splitOnNl l).dropLast
  else splitOnNl l

/-- Python `\d` on the ASCII range (`0`-`9`, code points 48-57). -/
def isDigitChar (c : Char) : Bool := 48 ≤ c.toNat && c.toNat ≤ 57

/-- The character class `[a-z0-9-]` (status-table keys, story-key
slugs): `a`-`z` are code points 97-122 and `-` is 45. -/
def isKeyChar (c : Char) : Bool :=
  (97 ≤ c.toNat && c.toNat ≤ 122) || isDigitChar c || c.toNat = 45

/-- The character class `[a-z-]` (status-table values). -/
def isValChar (c : Char) : Bool :=
  (97 ≤ c.toNat && c.toNat ≤ 122) || c.toNat = 45

/-- Value of a (non-empty) digit string, as Python `int` reads it
(leading zeros allowed). -/
def digitsToNat (ds : Str) : Nat :=
  ds.foldl (fun a c => a * 10 + (c.toNat - 48)) 0

/-- Parse a maximal non-empty digit run (`\d+`) from the front. -/
def parseDigits (l : Str) : Option (Nat × Str) :=
  let ds := l.takeWhile isDigitChar
  if ds.isEmpty then none else some (digitsToNat ds, l.dropWhile isDigitChar)

/-- Decimal digits of a natural number (Python `str(n)` / f-string
interpolation of an `int`); fuel-bounded division loop, exact for all
numbers below `10^30`. -/
def natDigitsAux : Nat → Nat → Str
  | 0, _ => []
  | fuel + 1, n =>
    if n = 0 then [] else natDigitsAux fuel (n / 10) ++ [Char.ofNat (48 + n % 10)]

/-- Decimal rendering of a natural number. -/
def natToChars (n : Nat) : Str :=
  if n = 0 then ['0'] else natDigitsAux 30 n

/-- Python `dict` assignment `d[k] = v` on an insertion-ordered
association list: overwrite in place if the key is present, else append. -/
def dictSet {α β : Type} [DecidableEq α] : List (α × β) → α → β → List (α × β)
  | [], k, v => [(k, v)]
  | (k0, v0) :: rest, k, v =>
    if k0 = k then (k, v) :: rest else (k0, v0) :: dictSet rest k v

/-- Python `d.get(k)` on an association list. -/
def dictGet {α β : Type} [DecidableEq α] : List (α × β) → α → Option β
  | [], _ => none
  | (k0, v0) :: rest, k => if k0 = k then some v0 else dictGet rest k

/-- Python `set.add` (only membership is ever observed). -/
def listInsert {α : Type} [DecidableEq α] (l : List α) (x : α) : List α :=
  if x ∈ l then l else l ++ [x]

/-- Python `a or b` for `a : Optional[str]` (both `None` and the empty
string are falsy). -/
def pyOrStr (a : Option Str) (b : Str) : Str :=
  match a with
  | none => b
  | some s => if s.isEmpty then b else s

/-- `read_text`: a file read returning the empty string when the file is
absent or unreadable.  The filesystem side is modelled by an
`Option Str`: `none` for "open or read failed", `some text` for a
successful read. -/
def read_text (content : Option Str) : Str := content.getD []

/-- The closed story-status vocabulary, in display order. -/
def STORY_STATUS_ORDER : List Str :=
  ["backlog".toList, "ready-for-dev".toList, "in-progress".toList,
   "review".toList, "done".toList, "optional".toList]

/-- The closed epic-status vocabulary. -/
def EPIC_STATUS_ORDER : List Str :=
  ["backlog".toList, "in-progress".toList, "done".toList, "optional".toList]

/-- `normalize_status(raw, fallback)`: `None`/empty input gives the
fallback; otherwise the trimmed, lowercased value is returned if it is in
either closed vocabulary, mapped if it is a recognized synonym, and the
fallback is returned otherwise. -/
def normalize_status (raw : Option Str) (fallback : Str) : Str :=
  match raw with
  | none => fallback
  | some r =>
    if r.isEmpty then fallback
    else
      let value := pyLower (pyStrip r)
      if value ∈ STORY_STATUS_ORDER ∨ value ∈ EPIC_STATUS_ORDER then value
      else if value = "ready".toList ∨ value = "ready for dev".toList then
        "ready-for-dev".toList
      else if value = "in progress".toList ∨ value = "doing".toList ∨
          value = "wip".toList then
        "in-progress".toList
      else fallback

/-- The regex `^\s{2}([a-z0-9-]+):\s*([a-z-]+)\s*$` of the status-table
parser.  The key class excludes `:`, and the value class and `\s` are
disjoint, so maximal munch coincides with the regex semantics. -/
def matchKV (l : Str) : Option (Str × Str) :=
  match l with
  | c1 :: c2 :: r =>
    if pyIsSpace c1 && pyIsSpace c2 then
      let key := r.takeWhile isKeyChar
      match r.dropWhile isKeyChar with
      | ':' :: r2 =>
        let r3 := r2.dropWhile pyIsSpace
        let val := r3.takeWhile isValChar
        let r4 := r3.dropWhile isValChar
        if !key.isEmpty && !val.isEmpty && (r4.dropWhile pyIsSpace).isEmpty then
          some (key, val)
        else none
      | _ => none
    else none
  | _ => none

/-- The line loop of `parse_sprint_status`: scan for the
`development_status:` marker, then consume the indented block.  Inside
the block blank and `#`-comment lines are skipped, a line not starting
with two spaces ends the scan (Python `break`), a two-space line failing
the key/value regex is skipped, and a match stores the pair normalized
with the raw value itself as fallback. -/
def sprintLoop : List (Str × Str) → Bool → List Str → List (Str × Str)
  | statuses, _, [] => statuses
  | statuses, false, line :: rest =>
    if pyStrip line = "development_status:".toList then sprintLoop statuses true rest
    else sprintLoop statuses false rest
  | statuses, true, line :: rest =>
    let stripped := pyStrip line
    if stripped.isEmpty || leadsWith ['#'] stripped then sprintLoop statuses true rest
    else if !leadsWith [' ', ' '] line then statuses
    else
      match matchKV line with
      | none => sprintLoop statuses true rest
      | some (k, v) => sprintLoop (dictSet statuses k (normalize_status (some v) v)) true rest

/-- `parse_sprint_status`: empty or unreadable file gives the empty
mapping; otherwise the marker-driven line scan above. -/
def parse_sprint_status (content : Option Str) : List (Str × Str) :=
  let text := read_text content
  if text.isEmpty then [] else sprintLoop [] false (pySplitlines text)

/-- The regex `^### Epic\s+(\d+):\s*(.+?)\s*$` (applied to a stripped
line, as the caller does): heading prefix, epic number, colon, then the
trimmed, necessarily non-empty title. -/
def matchEpicTitle (l : Str) : Option (Nat × Str) :=
  match chopLead "### Epic".toList l with
  | none => none
  | some r1 =>
    match r1 with
    | [] => none
    | c :: r2 =>
      if pyIsSpace c then
        match parseDigits (r2.dropWhile pyIsSpace) with
        | none => none
        | some (n, r3) =>
          match r3 with
          | ':' :: r4 =>
            let t := pyStrip r4
            if t.isEmpty then none else some (n, t)
          | _ => none
      else none

/-- The regex `^-\s+(\d+)\.(\d+)\s+(.+?)\s*$` (applied to a stripped
line): story bullet with epic and story numbers and a trimmed title. -/
def matchStoryLine (l : Str) : Option (Nat × Nat × Str) :=
  match l with
  | '-' :: c :: r1 =>
    if pyIsSpace c then
      match parseDigits (r1.dropWhile pyIsSpace) with
      | some (e, '.' :: r2) =>
        match parseDigits r2 with
        | some (s, c2 :: r3) =>
          if pyIsSpace c2 then
            let t := pyStrip r3
            if t.isEmpty then none else some (e, s, t)
          else none
        | _ => none
      | _ => none
    else none
  | _ => none

/-- State of the title extractor: the two title maps plus the (write-only,
never observed) current-epic marker the source carries along. -/
structure TitleState where
  epicTitles : List (Nat × Str)
  storyTitles : List (Str × Str)
  currentEpic : Option Nat
deriving DecidableEq

/-- One line of `parse_epic_and_story_titles`: an epic heading or a story
bullet overwrites the title stored for that key. -/
def titleStep (st : TitleState) (rawLine : Str) : TitleState :=
  let line := pyStrip rawLine
  match matchEpicTitle line with
  | some (n, t) => ⟨dictSet st.epicTitles n t, st.storyTitles, some n⟩
  | none =>
    match matchStoryLine line with
    | some (e, s, t) =>
      ⟨st.epicTitles, dictSet st.storyTitles (natToChars e ++ '-' :: natToChars s) t,
        if st.currentEpic = none then some e else st.currentEpic⟩
    | none => st

/-- One document of the title extractor: unreadable or empty documents
contribute nothing. -/
def titleDoc (st : TitleState) (doc : Option Str) : TitleState :=
  let text := read_text doc
  if text.isEmpty then st else (pySplitlines text).foldl titleStep st

/-- `parse_epic_and_story_titles`: fold the line scanner over the given
documents in caller order and return the two title maps. -/
def parse_epic_and_story_titles (files : List (Option Str)) :
    List (Nat × Str) × List (Str × Str) :=
  let st := files.foldl titleDoc ⟨[], [], none⟩
  (st.epicTitles, st.storyTitles)

/-- The regex `^# Story\s+\d+\.\d+:\s*(.+?)\s*$` (applied to a stripped
line); the numbers are matched but not captured. -/
def matchStoryFileTitle (l : Str) : Option Str :=
  match chopLead "# Story".toList l with
  | none => none
  | some r1 =>
    match r1 with
    | [] => none
    | c :: r2 =>
      if pyIsSpace c then
        match parseDigits (r2.dropWhile pyIsSpace) with
        | some (_, '.' :: r3) =>
          match parseDigits r3 with
          | some (_, ':' :: r4) =>
            let t := pyStrip r4
            if t.isEmpty then none else some t
          | _ => none
        | _ => none
      else none

/-- The regex `^Status:\s*(.+?)\s*$` (applied to a stripped line). -/
def matchStatusLine (l : Str) : Option Str :=
  match chopLead "Status:".toList l with
  | none => none
  | some r =>
    let t := pyStrip r
    if t.isEmpty then none else some t

/-- Result of parsing one story file. -/
structure ParsedStoryFile where
  title : Option Str
  status : Option Str
  checklist_done : Nat
  checklist_total : Nat
  updated_at : Option Str
deriving DecidableEq

/-- The title/status line scan of `parse_story_file`: the first matching
title line and the first matching status line win; a line that sets the
title is not also tested for a status (Python `continue`); the loop stops
as soon as both are known (Python `break`). -/
def storyScan : Option Str → Option Str → List Str → Option Str × Option Str
  | some t, some s, _ => (some t, some s)
  | t, s, [] => (t, s)
  | none, s, line :: rest =>
    (match matchStoryFileTitle (pyStrip line) with
     | some ti => storyScan (some ti) s rest
     | none =>
       match s with
       | none =>
         match matchStatusLine (pyStrip line) with
         | some raw => storyScan none (some (normalize_status (some raw) "backlog".toList)) rest
         | none => storyScan none none rest
       | some s0 => storyScan none (some s0) rest)
  | some t, none, line :: rest =>
    (match matchStatusLine (pyStrip line) with
     | some raw => (some t, some (normalize_status (some raw) "backlog".toList))
     | none => storyScan (some t) none rest)

/-- A line counted by `^- \[(?: |x|X)\]` under `re.MULTILINE`. -/
def isCheckboxLine (l : Str) : Bool :=
  leadsWith "- [ ]".toList l || leadsWith "- [x]".toList l || leadsWith "- [X]".toList l

/-- A line counted by `^- \[(?:x|X)\]` under `re.MULTILINE`. -/
def isCheckedLine (l : Str) : Bool :=
  leadsWith "- [x]".toList l || leadsWith "- [X]".toList l

/-- `parse_story_file`: empty, absent or unreadable input short-circuits
to the all-null record without consulting file metadata; otherwise the
line scan plus the two multiline checkbox counts, with the stat-derived
modification timestamp (`none` when stat fails). -/
def parse_story_file (content : Option Str) (mtime : Option Str) : ParsedStoryFile :=
  let text := read_text content
  if text.isEmpty then ⟨none, none, 0, 0, none⟩
  else
    let ts := storyScan none none (pySplitlines text)
    ⟨ts.1, ts.2, (splitOnNl text).countP isCheckedLine,
      (splitOnNl text).countP isCheckboxLine, mtime⟩

/-- The regex `^epic-(\d+)$`. -/
def matchEpicKey (k : Str) : Option Nat :=
  match chopLead "epic-".toList k with
  | none => none
  | some r => if !r.isEmpty && r.all isDigitChar then some (digitsToNat r) else none

/-- The regex `^(\d+)-(\d+)-([a-z0-9-]+)$`.  Shrinking either `\d+` group
can only place a digit where `-` is required, so maximal munch coincides
with the backtracking regex semantics. -/
def matchStoryKey (k : Str) : Option (Nat × Nat × Str) :=
  match parseDigits k with
  | some (e, '-' :: r1) =>
    match parseDigits r1 with
    | some (s, '-' :: r2) =>
      if !r2.isEmpty && r2.all isKeyChar then some (e, s, r2) else none
    | _ => none
  | _ => none

/-- Python `str.title()` on ASCII input: a letter is uppercased after a
non-letter (including a digit or start) and lowercased after a letter. -/
def pyTitleCase (l : Str) : Str :=
  (l.foldl
    (fun acc c =>
      let c2 := if c.isAlpha then (if acc.2 then lowerChar c else upperChar c) else c
      (acc.1 ++ [c2], c.isAlpha))
    ([], false)).1

/-- `title_from_story_key`: a non-story-shaped key is returned unchanged;
otherwise the slug with hyphens as spaces, stripped and title-cased. -/
def title_from_story_key (storyKey : Str) : Str :=
  match matchStoryKey storyKey with
  | none => storyKey
  | some (_, _, slug) =>
    pyTitleCase (pyStrip (slug.map (fun c => if c = '-' then ' ' else c)))

/-! ### IEEE-754 binary64 model for the progress percentage

The source computes `int((done / total) * 100)`: CPython true division
of two ints is the correctly rounded (nearest, ties to even) binary64
quotient, the multiplication by `100` is again correctly rounded, and
`int` truncates toward zero.  A positive finite binary64 value is
`sig * 2 ^ exp` with `2^52 ≤ sig < 2^53`; the model below computes that
representation exactly over the naturals.  The fuel of `128` bounds the
magnitude range to `(2^-128, 2^128)`, far beyond the percentage domain
`[0, 100]` this function is applied to. -/

/-- Round `a / b` (with `b > 0`) to the nearest integer, ties to even. -/
def rhe (a b : Nat) : Nat :=
  let q := a / b
  let r := a % b
  if 2 * r < b then q
  else if b < 2 * r then q + 1
  else if q % 2 = 0 then q else q + 1

/-- Largest `e` with `b * 2^e ≤ a`, for `b ≤ a` (fuel-bounded). -/
def ilogUp : Nat → Nat → Nat → Nat
  | 0, _, _ => 0
  | fuel + 1, a, b => if a < 2 * b then 0 else ilogUp fuel a (2 * b) + 1

/-- Smallest `m` with `a * 2^m ≥ b`, for `a < b` (fuel-bounded). -/
def ilogDown : Nat → Nat → Nat → Nat
  | 0, _, _ => 0
  | fuel + 1, a, b => if b ≤ a then 0 else ilogDown fuel (2 * a) b + 1

/-- Binary exponent of `a / b`: the unique `e` with
`2^e ≤ a / b < 2^(e+1)`. -/
def floatE (a b : Nat) : Int :=
  if b ≤ a then (ilogUp 128 a b : Int) else -(ilogDown 128 a b : Int)

/-- Correctly rounded binary64 value of `a / b` (`a, b > 0`), as a
significand/exponent pair with value `sig * 2 ^ exp`. -/
def floatOfRat (a b : Nat) : Nat × Int :=
  let e := floatE a b
  let t : Int := 52 - e
  let sig := if 0 ≤ t then rhe (a * 2 ^ t.toNat) b else rhe a (b * 2 ^ (-t).toNat)
  if sig = 2 ^ 53 then (2 ^ 52, e - 51) else (sig, e - 52)

/-- Correctly rounded binary64 product of a float `(sig, exp)` with an
exactly representable small integer `k`. -/
def floatMulNat (sig : Nat) (exp : Int) (k : Nat) : Nat × Int :=
  let m := sig * k
  let bits := (List.range 128).foldl (fun acc i => if 2 ^ i ≤ m then i + 1 else acc) 0
  if bits ≤ 53 then (m, exp)
  else
    let sh : Nat := bits - 53
    let n := rhe m (2 ^ sh)
    if n = 2 ^ 53 then (2 ^ 52, exp + (sh : Int) + 1) else (n, exp + (sh : Int))

/-- Python `int()` truncation of a non-negative float `(sig, exp)`. -/
def truncFloat (sig : Nat) (exp : Int) : Nat :=
  if 0 ≤ exp then sig * 2 ^ exp.toNat else sig / 2 ^ (-exp).toNat

/-- `int((done / total) * 100) if total else 0`, under the binary64
model of CPython float arithmetic. -/
def progress_percent (done total : Nat) : Nat :=
  if total = 0 then 0
  else
    if done = 0 then 0
    else
      let d := floatOfRat done total
      let p := floatMulNat d.1 d.2 100
      truncFloat p.1 p.2

/-! ### Filesystem model and board records -/

/-- One `*.md` file present in the implementation-artifacts directory:
its base name (stem), its text (`none` when the file exists but cannot
be read) and the stat-derived modification timestamp (`none` when the
stat call fails). -/
structure FileEntry where
  stem : Str
  content : Option Str
  mtime : Option Str
deriving DecidableEq

/-- The filesystem state one board build observes: existence of the
artifact root and the status file, the text of the three well-known
files (`none` for absent/unreadable) and the `*.md` files of the
implementation-artifacts directory. -/
structure FS where
  outputDirExists : Bool
  sprintExists : Bool
  sprintContent : Option Str
  visualContent : Option Str
  epicsContent : Option Str
  implDirExists : Bool
  implFiles : List FileEntry
deriving DecidableEq

/-- The story file `<implementation-artifacts>/<key>.md` for a key. -/
def implLookup (fs : FS) (key : Str) : Option FileEntry :=
  fs.implFiles.find? (fun fe => fe.stem = key)

/-- Text read from the story file of a key (for `read_text`). -/
def implRaw (fs : FS) (key : Str) : Option Str :=
  (implLookup fs key).bind (fun fe => fe.content)

/-- Modification timestamp of the story file of a key. -/
def implMtimeOf (fs : FS) (key : Str) : Option Str :=
  (implLookup fs key).bind (fun fe => fe.mtime)

/-- `str(impl_dir / f"{key}.md")` for a POSIX artifact root. -/
def implPath (outputDir : Str) (key : Str) : Str :=
  outputDir ++ "/implementation-artifacts/".toList ++ key ++ ".md".toList

/-- One emitted story record. -/
structure StoryEntry where
  key : Str
  epic_number : Nat
  story_number : Nat
  display_number : Str
  title : Str
  status : Str
  status_from_sprint : Option Str
  status_from_file : Option Str
  status_mismatch : Bool
  file_path : Str
  file_exists : Bool
  updated_at : Option Str
  checklist_done : Nat
  checklist_total : Nat
deriving DecidableEq

/-- One epic record collected from the status table (or synthesized). -/
structure EpicEntry where
  key : Str
  number : Nat
  title : Str
  status : Str
deriving DecidableEq

/-- One epic summary with its progress fields. -/
structure EpicProgressEntry where
  key : Str
  number : Nat
  title : Str
  status : Str
  story_total : Nat
  story_done : Nat
  story_in_progress : Nat
  story_review : Nat
  story_backlog : Nat
  progress_percent : Nat
deriving DecidableEq

/-- The JSON board snapshot (the fields with domain content; the
constant workspace paths of the script are omitted). -/
structure Board where
  generated_at : Str
  bmad_output : Str
  sprint_status_file : Str
  story_count : Nat
  epic_count : Nat
  stories_by_status : List (Str × Nat)
  status_mismatch_count : Nat
  missing_file_count : Nat
  warnings : List Str
  epics : List EpicProgressEntry
  stories : List StoryEntry
deriving DecidableEq

/-- Accumulator of the status-table pass of `build_board_data`
(`epic_entries`, `story_entries`, `story_keys_in_status`,
`epic_keys_in_status`). -/
structure Pass1Acc where
  epics : List EpicEntry
  stories : List StoryEntry
  storyKeys : List Str
  epicKeys : List Str
deriving DecidableEq

/-- `f"{epic_number}-{story_number}"`: the compact story key used for
planning-document title lookup. -/
def compactKey (e s : Nat) : Str :=
  natToChars e ++ '-' :: natToChars s

/-- The story record emitted for a status-table entry `key: value`
whose key has the story shape, with numbers `e`/`s`:  the table status
(normalized, fallback `backlog`) is the effective status, the story file
is read from disk, and the mismatch flag models
`bool(file_status and file_status != mapped_status)`. -/
def mkStoryFromTable (outputDir : Str) (fs : FS) (storyTitles : List (Str × Str))
    (key value : Str) (e s : Nat) : StoryEntry :=
  let parsed := parse_story_file (implRaw fs key) (implMtimeOf fs key)
  let mapped := normalize_status (some value) "backlog".toList
  let fileStatus := parsed.status
  { key := key
    epic_number := e
    story_number := s
    display_number := natToChars e ++ '.' :: natToChars s
    title := pyOrStr (dictGet storyTitles (compactKey e s))
      (pyOrStr parsed.title (title_from_story_key key))
    status := mapped
    status_from_sprint := some mapped
    status_from_file := fileStatus
    status_mismatch :=
      match fileStatus with
      | none => false
      | some f => !f.isEmpty && f ≠ mapped
    file_path := implPath outputDir key
    file_exists := (implLookup fs key).isSome
    updated_at := parsed.updated_at
    checklist_done := parsed.checklist_done
    checklist_total := parsed.checklist_total }

/-- One iteration of the status-table loop: epic-shaped keys append an
epic record, story-shaped keys append a story record and remember the
key, all other keys are skipped. -/
def pass1Step (outputDir : Str) (fs : FS) (epicTitles : List (Nat × Str))
    (storyTitles : List (Str × Str)) (acc : Pass1Acc) (kv : Str × Str) : Pass1Acc :=
  match matchEpicKey kv.1 with
  | some n =>
    { acc with
      epicKeys := listInsert acc.epicKeys kv.1
      epics := acc.epics ++
        [{ key := kv.1, number := n,
           title := (dictGet epicTitles n).getD ("Epic ".toList ++ natToChars n),
           status := normalize_status (some kv.2) "backlog".toList }] }
  | none =>
    match matchStoryKey kv.1 with
    | none => acc
    | some (e, s, _) =>
      { acc with
        storyKeys := listInsert acc.storyKeys kv.1
        stories := acc.stories ++ [mkStoryFromTable outputDir fs storyTitles kv.1 kv.2 e s] }

/-- The status-table pass of `build_board_data`. -/
def pass1 (outputDir : Str) (fs : FS) (epicTitles : List (Nat × Str))
    (storyTitles : List (Str × Str)) (statuses : List (Str × Str)) : Pass1Acc :=
  statuses.foldl (pass1Step outputDir fs epicTitles storyTitles) ⟨[], [], [], []⟩

/-- The story record built from a `*.md` file absent from the status
table: the effective status is the file's own declared status (fallback
`backlog`), the table status is null and the mismatch flag false. -/
def mkStoryFromFile (outputDir : Str) (storyTitles : List (Str × Str))
    (fe : FileEntry) (e s : Nat) : StoryEntry :=
  let parsed := parse_story_file fe.content fe.mtime
  let fallbackStatus := pyOrStr parsed.status "backlog".toList
  { key := fe.stem
    epic_number := e
    story_number := s
    display_number := natToChars e ++ '.' :: natToChars s
    title := pyOrStr (dictGet storyTitles (compactKey e s))
      (pyOrStr parsed.title (title_from_story_key fe.stem))
    status := normalize_status (some fallbackStatus) "backlog".toList
    status_from_sprint := none
    status_from_file := parsed.status
    status_mismatch := false
    file_path := implPath outputDir fe.stem
    file_exists := true
    updated_at := parsed.updated_at
    checklist_done := parsed.checklist_done
    checklist_total := parsed.checklist_total }

/-- The record the file-glob pass emits for one `*.md` file: `none`
when its stem is not story-shaped or its key was already seen in the
status table; otherwise the story record built from the file alone. -/
def pass2Step (outputDir : Str) (storyTitles : List (Str × Str)) (keys : List Str)
    (fe : FileEntry) : Option StoryEntry :=
  match matchStoryKey fe.stem with
  | none => none
  | some (e, s, _) =>
    if fe.stem ∈ keys then none
    else some (mkStoryFromFile outputDir storyTitles fe e s)

/-- Lexicographic order on character lists by code point (Python string
comparison). -/
def strLe : Str → Str → Bool
  | [], _ => true
  | _ :: _, [] => false
  | a :: as, b :: bs =>
    if a = b then strLe as bs else decide (a.toNat < b.toNat)

/-- `sorted(impl_dir.glob("*.md"))`: the directory entries ordered by
full file name (all paths share the directory prefix, so the `.md`
names decide). -/
def sortFiles (files : List FileEntry) : List FileEntry :=
  files.insertionSort
    (fun a b => strLe (a.stem ++ ".md".toList) (b.stem ++ ".md".toList) = true)

/-- `story_entries.sort(key=(epic_number, story_number))`: weak linear
order used by the final stable sort. -/
def storyLe (a b : StoryEntry) : Prop :=
  a.epic_number < b.epic_number ∨
    (a.epic_number = b.epic_number ∧ a.story_number ≤ b.story_number)

instance : DecidableRel storyLe := fun a b => by
  unfold storyLe
  exact inferInstance

/-- `stories_by_status` increment:
`d[status] = d.get(status, 0) + 1`. -/
def dictIncr (d : List (Str × Nat)) (k : Str) : List (Str × Nat) :=
  match dictGet d k with
  | some n => dictSet d k (n + 1)
  | none => d ++ [(k, 1)]

/-- The combined story list of a build: the status-table pass followed
by the file-glob pass (the latter only when the directory exists). -/
def storiesCombined (outputDir : Str) (fs : FS) (epicTitles : List (Nat × Str))
    (storyTitles : List (Str × Str)) (statuses : List (Str × Str)) : List StoryEntry :=
  (pass1 outputDir fs epicTitles storyTitles statuses).stories ++
    (if fs.implDirExists then
      (sortFiles fs.implFiles).filterMap
        (pass2Step outputDir storyTitles
          (pass1 outputDir fs epicTitles storyTitles statuses).storyKeys)
    else [])

/-- The epic record synthesized for an epic number referenced by a
story but absent from the table's epic entries. -/
def synthEpic (epicTitles : List (Nat × Str)) (n : Nat) : EpicEntry :=
  { key := "epic-".toList ++ natToChars n
    number := n
    title := (dictGet epicTitles n).getD ("Epic ".toList ++ natToChars n)
    status := "backlog".toList }

/-- The `epic_map`: table epics keyed by number (later same-number
entries overwrite), then a synthesized epic for every story whose epic
number is absent. -/
def epicMapOf (epicTitles : List (Nat × Str)) (epics : List EpicEntry)
    (stories : List StoryEntry) : List (Nat × EpicEntry) :=
  stories.foldl
    (fun m s =>
      match dictGet m s.epic_number with
      | some _ => m
      | none => dictSet m s.epic_number (synthEpic epicTitles s.epic_number))
    (epics.foldl (fun m e => dictSet m e.number e) [])

/-- The per-epic progress summary computed from the combined story
list for one `epic_map` entry. -/
def mkEpicProgress (stories2 : List StoryEntry) (p : Nat × EpicEntry) : EpicProgressEntry :=
  let stories := stories2.filter (fun s => s.epic_number = p.1)
  let total := stories.length
  let done := stories.countP (fun s => s.status = "done".toList)
  { key := p.2.key
    number := p.1
    title := p.2.title
    status := p.2.status
    story_total := total
    story_done := done
    story_in_progress := stories.countP (fun s => s.status = "in-progress".toList)
    story_review := stories.countP (fun s => s.status = "review".toList)
    story_backlog := stories.countP
      (fun s => s.status = "backlog".toList ∨ s.status = "ready-for-dev".toList)
    progress_percent := progress_percent done total }

/-- The body of `build_board_data` after the two parsers ran: both
story passes, the epic map with synthesized epics, per-epic progress,
the sorted outputs and the snapshot counters. -/
def assembleBoard (outputDir : Str) (now : Str) (fs : FS)
    (statuses : List (Str × Str)) (epicTitles : List (Nat × Str))
    (storyTitles : List (Str × Str)) : Board :=
  let sprintStatusFile := outputDir ++ "/implementation-artifacts/sprint-status.yaml".toList
  let warnings :=
    (if fs.outputDirExists then [] else ["Output path does not exist: ".toList ++ outputDir]) ++
      (if fs.sprintExists then [] else ["sprint-status.yaml not found: ".toList ++ sprintStatusFile])
  let acc := pass1 outputDir fs epicTitles storyTitles statuses
  let stories2 := storiesCombined outputDir fs epicTitles storyTitles statuses
  let epicMap := epicMapOf epicTitles acc.epics stories2
  let epicSorted := epicMap.insertionSort (fun a b => a.1 ≤ b.1)
  let epicProgress := epicSorted.map (mkEpicProgress stories2)
  let storiesSorted := stories2.insertionSort storyLe
  let epicsSorted := epicProgress.insertionSort (fun a b => a.number ≤ b.number)
  let byStatus := storiesSorted.foldl (fun d s => dictIncr d s.status)
    (STORY_STATUS_ORDER.map (fun st => (st, 0)))
  { generated_at := now
    bmad_output := outputDir
    sprint_status_file := sprintStatusFile
    story_count := storiesSorted.length
    epic_count := epicsSorted.length
    stories_by_status := byStatus
    status_mismatch_count := storiesSorted.countP (fun s => s.status_mismatch)
    missing_file_count := storiesSorted.countP (fun s => !s.file_exists)
    warnings := warnings
    epics := epicsSorted
    stories := storiesSorted }

/-- `build_board_data(output_dir)`: parse the status table and the two
planning documents (visualization document first), then assemble the
snapshot.  The wall-clock timestamp is passed in as `now`. -/
def build_board_data (outputDir : Str) (fs : FS) (now : Str) : Board :=
  let statuses := parse_sprint_status fs.sprintContent
  let titles := parse_epic_and_story_titles [fs.visualContent, fs.epicsContent]
  assembleBoard outputDir now fs statuses titles.1 titles.2

/-! ### Association-list lemmas -/

theorem dictGet_dictSet {α β : Type} [DecidableEq α] (d : List (α × β)) (k k' : α) (v : β) :
    dictGet (dictSet d k v) k' = if k = k' then some v else dictGet d k' := by
  induction d with
  | nil => by_cases h : k = k' <;> simp [dictSet, dictGet, h]
  | cons hd t ih =>
    obtain ⟨k0, v0⟩ := hd
    by_cases h0 : k0 = k
    · subst h0
      by_cases h' : k0 = k'
      · subst h'
        simp [dictSet, dictGet]
      · simp [dictSet, dictGet, h']
    · by_cases h' : k0 = k'
      · subst h'
        have hkk : ¬ k = k0 := fun h => h0 h.symm
        simp [dictSet, dictGet, h0, hkk]
      · simp [dictSet, dictGet, h0, h', ih]

theorem mem_dictSet {α β : Type} [DecidableEq α] (d : List (α × β)) (k : α) (v : β)
    (p : α × β) (hp : p ∈ dictSet d k v) : p = (k, v) ∨ p ∈ d := by
  induction d with
  | nil => simpa [dictSet] using hp
  | cons hd t ih =>
    obtain ⟨k0, v0⟩ := hd
    by_cases h0 : k0 = k
    · subst h0
      simp only [dictSet, if_pos rfl] at hp
      rcases List.mem_cons.1 hp with h | h
      · exact Or.inl h
      · exact Or.inr (List.mem_cons_of_mem _ h)
    · simp only [dictSet, if_neg h0] at hp
      rcases List.mem_cons.1 hp with h | h
      · exact Or.inr (List.mem_cons.2 (Or.inl h))
      · rcases ih h with h' | h'
        · exact Or.inl h'
        · exact Or.inr (List.mem_cons_of_mem _ h')

theorem keys_dictSet {α β : Type} [DecidableEq α] (d : List (α × β)) (k : α) (v : β) :
    (dictSet d k v).map Prod.fst = if k ∈ d.map Prod.fst then d.map Prod.fst
      else d.map Prod.fst ++ [k] := by
  induction d with
  | nil => simp [dictSet]
  | cons hd t ih =>
    obtain ⟨k0, v0⟩ := hd
    by_cases h0 : k0 = k
    · subst h0
      simp [dictSet]
    · by_cases hk : k ∈ t.map Prod.fst <;>
        simp [dictSet, h0, ih, hk, Ne.symm h0]

theorem nodup_keys_dictSet {α β : Type} [DecidableEq α] (d : List (α × β)) (k : α) (v : β)
    (h : (d.map Prod.fst).Nodup) : ((dictSet d k v).map Prod.fst).Nodup := by
  rw [keys_dictSet]
  by_cases hk : k ∈ d.map Prod.fst
  · simpa [hk]
  · simp only [hk, if_false]
    rw [List.nodup_append]
    refine ⟨h, List.nodup_singleton _, fun x hx hxk => ?_⟩
    rw [List.mem_singleton] at hxk
    exact hk (hxk ▸ hx)

theorem dictGet_isSome_of_mem_keys {α β : Type} [DecidableEq α] (d : List (α × β)) (k : α)
    (h : k ∈ d.map Prod.fst) : ∃ v, dictGet d k = some v := by
  induction d with
  | nil => simp at h
  | cons hd t ih =>
    obtain ⟨k0, v0⟩ := hd
    by_cases h0 : k0 = k
    · exact ⟨v0, by simp [dictGet, h0]⟩
    · simp only [List.map_cons, List.mem_cons] at h
      rcases h with h | h
      · exact absurd h.symm h0
      · obtain ⟨v, hv⟩ := ih h
        exact ⟨v, by simp [dictGet, h0, hv]⟩

theorem mem_keys_of_dictGet {α β : Type} [DecidableEq α] (d : List (α × β)) (k : α) (v : β)
    (h : dictGet d k = some v) : (k, v) ∈ d := by
  induction d with
  | nil => simp [dictGet] at h
  | cons hd t ih =>
    obtain ⟨k0, v0⟩ := hd
    by_cases h0 : k0 = k
    · subst h0
      simp [dictGet] at h
      subst h
      exact List.mem_cons_self _ _
    · simp only [dictGet, if_neg h0] at h
      exact List.mem_cons_of_mem _ (ih h)

/-! ### Status-normalizer lemmas -/

theorem epic_vocab_sub_story (v : Str) (h : v ∈ EPIC_STATUS_ORDER) :
    v ∈ STORY_STATUS_ORDER := by
  simp only [EPIC_STATUS_ORDER, List.mem_cons, List.not_mem_nil, or_false] at h
  rcases h with h | h | h | h <;> subst h <;> decide

theorem normalize_status_eq (r fb : Str) (hr : r.isEmpty = false) :
    normalize_status (some r) fb =
      (if pyLower (pyStrip r) ∈ STORY_STATUS_ORDER ∨ pyLower (pyStrip r) ∈ EPIC_STATUS_ORDER
       then pyLower (pyStrip r)
       else if pyLower (pyStrip r) = "ready".toList ∨ pyLower (pyStrip r) = "ready for dev".toList
       then "ready-for-dev".toList
       else if pyLower (pyStrip r) = "in progress".toList ∨ pyLower (pyStrip r) = "doing".toList ∨
           pyLower (pyStrip r) = "wip".toList
       then "in-progress".toList
       else fb) := by
  simp [normalize_status, hr]

theorem normalize_status_mem_story (raw : Option Str) (fb : Str)
    (hfb : fb ∈ STORY_STATUS_ORDER) : normalize_status raw fb ∈ STORY_STATUS_ORDER := by
  cases raw with
  | none => simpa [normalize_status]
  | some r =>
    cases hr : r.isEmpty with
    | true => simpa [normalize_status, hr]
    | false =>
      rw [normalize_status_eq r fb hr]
      by_cases h1 : pyLower (pyStrip r) ∈ STORY_STATUS_ORDER ∨ pyLower (pyStrip r) ∈ EPIC_STATUS_ORDER
      · rw [if_pos h1]
        rcases h1 with h1 | h1
        · exact h1
        · exact epic_vocab_sub_story _ h1
      · rw [if_neg h1]
        by_cases h2 : pyLower (pyStrip r) = "ready".toList ∨ pyLower (pyStrip r) = "ready for dev".toList
        · rw [if_pos h2]; decide
        · rw [if_neg h2]
          by_cases h3 : pyLower (pyStrip r) = "in progress".toList ∨ pyLower (pyStrip r) = "doing".toList ∨
              pyLower (pyStrip r) = "wip".toList
          · rw [if_pos h3]; decide
          · rw [if_neg h3]; exact hfb

theorem normalize_of_canonical (v fb : Str) (h1 : v.isEmpty = false)
    (h2 : pyLower (pyStrip v) = v)
    (h3 : v ∈ STORY_STATUS_ORDER ∨ v ∈ EPIC_STATUS_ORDER) :
    normalize_status (some v) fb = v := by
  rw [normalize_status_eq v fb h1, h2, if_pos h3]

theorem normalize_status_fix_story (v : Str) (hv : v ∈ STORY_STATUS_ORDER) (fb : Str) :
    normalize_status (some v) fb = v := by
  simp only [STORY_STATUS_ORDER, List.mem_cons, List.not_mem_nil, or_false] at hv
  rcases hv with h | h | h | h | h | h <;> subst h <;>
    exact normalize_of_canonical _ _ (by decide) (by decide) (by decide)

theorem story_vocab_ne_empty (v : Str) (h : v ∈ STORY_STATUS_ORDER) : v ≠ [] := by
  simp only [STORY_STATUS_ORDER, List.mem_cons, List.not_mem_nil, or_false] at h
  rcases h with h | h | h | h | h | h <;> subst h <;> decide

/-! ### Story-file parser lemmas -/

theorem storyScan_nil (t s : Option Str) : storyScan t s [] = (t, s) := by
  cases t <;> cases s <;> simp [storyScan]

theorem storyScan_status_mem (ls : List Str) (t s : Option Str)
    (hs : ∀ x, s = some x → x ∈ STORY_STATUS_ORDER) :
    ∀ x, (storyScan t s ls).2 = some x → x ∈ STORY_STATUS_ORDER := by
  induction ls generalizing t s with
  | nil =>
    intro x hx
    rw [storyScan_nil] at hx
    exact hs x hx
  | cons l rest ih =>
    intro x hx
    cases t with
    | some tv =>
      cases s with
      | some sv =>
        simp only [storyScan] at hx
        exact hs x hx
      | none =>
        rcases hm : matchStatusLine (pyStrip l) with _ | raw <;>
          simp only [storyScan, hm] at hx
        · exact ih (some tv) none hs x hx
        · rw [Option.some.injEq] at hx
          exact hx ▸ normalize_status_mem_story _ _ (by decide)
    | none =>
      cases s with
      | some sv =>
        rcases ht : matchStoryFileTitle (pyStrip l) with _ | ti <;>
          simp only [storyScan, ht] at hx
        · exact ih none (some sv) hs x hx
        · exact hs x hx
      | none =>
        rcases ht : matchStoryFileTitle (pyStrip l) with _ | ti <;>
          simp only [storyScan, ht] at hx
        · rcases hm : matchStatusLine (pyStrip l) with _ | raw <;>
            simp only [hm] at hx
          · exact ih none none hs x hx
          · refine ih none _ ?_ x hx
            intro y hy
            rw [Option.some.injEq] at hy
            exact hy ▸ normalize_status_mem_story _ _ (by decide)
        · exact ih (some ti) none hs x hx

theorem parse_story_file_status_mem (c m : Option Str) (f : Str)
    (h : (parse_story_file c m).status = some f) : f ∈ STORY_STATUS_ORDER := by
  simp only [parse_story_file] at h
  by_cases ht : (read_text c).isEmpty
  · rw [if_pos ht] at h
    simp at h
  · rw [if_neg ht] at h
    exact storyScan_status_mem _ none none (by intro x hx; simp at hx) f h

theorem parse_story_file_status_ne_empty (c m : Option Str) (f : Str)
    (h : (parse_story_file c m).status = some f) : f ≠ [] :=
  story_vocab_ne_empty f (parse_story_file_status_mem c m f h)

/-- Claim C7: the status normalizer is a total function: for null or
empty input it returns the fallback; otherwise it trims and lowercases
the input and returns it when it belongs to either closed vocabulary;
the synonyms ready / ready for dev give ready-for-dev and in progress /
doing / wip give in-progress; any other input returns the fallback. -/
theorem C7_normalize_status_total (fb : Str) :
    normalize_status none fb = fb ∧
    normalize_status (some []) fb = fb ∧
    ∀ r : Str,
      ((pyLower (pyStrip r) ∈ STORY_STATUS_ORDER ∨ pyLower (pyStrip r) ∈ EPIC_STATUS_ORDER) →
        normalize_status (some r) fb = pyLower (pyStrip r)) ∧
      ((pyLower (pyStrip r) = "ready".toList ∨ pyLower (pyStrip r) = "ready for dev".toList) →
        normalize_status (some r) fb = "ready-for-dev".toList) ∧
      ((pyLower (pyStrip r) = "in progress".toList ∨ pyLower (pyStrip r) = "doing".toList ∨
          pyLower (pyStrip r) = "wip".toList) →
        normalize_status (some r) fb = "in-progress".toList) ∧
      (pyLower (pyStrip r) ∉ STORY_STATUS_ORDER → pyLower (pyStrip r) ∉ EPIC_STATUS_ORDER →
        pyLower (pyStrip r) ∉ ["ready".toList, "ready for dev".toList, "in progress".toList,
          "doing".toList, "wip".toList] →
        normalize_status (some r) fb = fb) := by
  refine ⟨rfl, by simp [normalize_status], fun r => ⟨?_, ?_, ?_, ?_⟩⟩
  · intro h
    cases r with
    | nil => exact absurd h (by decide)
    | cons a as => rw [normalize_status_eq (a :: as) fb rfl, if_pos h]
  · intro h
    cases r with
    | nil =>
      exfalso
      revert h
      decide
    | cons a as =>
      rw [normalize_status_eq (a :: as) fb rfl]
      rcases h with h | h <;> rw [h, if_neg (by decide), if_pos (by decide)]
  · intro h
    cases r with
    | nil =>
      exfalso
      revert h
      decide
    | cons a as =>
      rw [normalize_status_eq (a :: as) fb rfl]
      rcases h with h | h | h <;>
        rw [h, if_neg (by decide), if_neg (by decide), if_pos (by decide)]
  · intro h1 h2 h3
    cases r with
    | nil => simp [normalize_status]
    | cons a as =>
      rw [normalize_status_eq (a :: as) fb rfl, if_neg (by exact fun hc => hc.elim h1 h2),
        if_neg, if_neg]
      · intro hc
        rcases hc with hc | hc | hc <;> exact h3 (by simp [hc])
      · intro hc
        rcases hc with hc | hc <;> exact h3 (by simp [hc])

/-- Witness for C7 at concrete inputs: null, a synonym with mixed case
and surrounding whitespace, another synonym, a vocabulary member, and
free text falling back. -/
theorem C7_witness :
    normalize_status none "backlog".toList = "backlog".toList ∧
    normalize_status (some "  Ready For DEV ".toList) "backlog".toList = "ready-for-dev".toList ∧
    normalize_status (some "wip".toList) "backlog".toList = "in-progress".toList ∧
    normalize_status (some "Done".toList) "backlog".toList = "done".toList ∧
    normalize_status (some "garbage".toList) "backlog".toList = "backlog".toList :=
  ⟨(C7_normalize_status_total _).1,
   ((C7_normalize_status_total _).2.2 _).2.1 (by decide),
   ((C7_normalize_status_total _).2.2 _).2.2.1 (by decide),
   by
     have h := ((C7_normalize_status_total "backlog".toList).2.2 "Done".toList).1 (by decide)
     rw [h]
     decide,
   ((C7_normalize_status_total _).2.2 _).2.2.2 (by decide) (by decide) (by decide)⟩

/-- Claim C9: when reading a story file yields the empty string (absent,
unreadable, or present but empty), the parser returns the all-null
record; in particular the modification time is never consulted, so
updated_at is null even when metadata is available. -/
theorem C9_empty_story_file (c mt : Option Str) (h : read_text c = []) :
    parse_story_file c mt = ⟨none, none, 0, 0, none⟩ := by
  simp [parse_story_file, h]

/-- Witness for C9: a file that exists and is empty, with an available
modification timestamp, still yields the all-null record. -/
theorem C9_witness :
    read_text (some []) = [] ∧
    parse_story_file (some []) (some "2026-01-01T00:00:00+00:00".toList) =
      ⟨none, none, 0, 0, none⟩ :=
  ⟨rfl, C9_empty_story_file (some []) (some "2026-01-01T00:00:00+00:00".toList) rfl⟩

/-- Claim C5 evaluation: at an epic with 100 stories of which 29 are
done, the program's binary64 computation `int((29 / 100) * 100)` yields
28, while the exact integer floor of `100 * 29 / 100` is 29. -/
theorem C5_float_progress_eval :
    progress_percent 29 100 = 28 ∧ (100 * 29) / 100 = 29 := by
  exact ⟨by decide, by decide⟩

/-! ### Status-table parser lemmas -/

theorem keyChar_not_space (c : Char) (h : isKeyChar c = true) : pyIsSpace c = false := by
  simp only [isKeyChar, isDigitChar, Bool.or_eq_true, Bool.and_eq_true,
    decide_eq_true_eq] at h
  simp only [pyIsSpace, Bool.or_eq_false_iff, Bool.and_eq_false_iff,
    decide_eq_false_iff_not]
  omega

theorem keyChar_not_hash (c : Char) (h : isKeyChar c = true) : ¬ (('#' : Char) = c) := by
  intro hc
  subst hc
  simp only [isKeyChar, isDigitChar, Bool.or_eq_true, Bool.and_eq_true,
    decide_eq_true_eq] at h
  revert h
  decide

theorem valChar_not_upper (c : Char) (h : isValChar c = true) : lowerChar c = c := by
  simp only [isValChar, Bool.or_eq_true, Bool.and_eq_true, decide_eq_true_eq] at h
  simp only [lowerChar]
  rw [if_neg]
  simp only [Bool.and_eq_true, decide_eq_true_eq, not_and]
  omega

theorem valChar_not_space (c : Char) (h : isValChar c = true) : pyIsSpace c = false := by
  simp only [isValChar, Bool.or_eq_true, Bool.and_eq_true, decide_eq_true_eq] at h
  simp only [pyIsSpace, Bool.or_eq_false_iff, Bool.and_eq_false_iff,
    decide_eq_false_iff_not]
  omega

theorem rstripChars_of_nonspace (l : Str) (h : ∀ c ∈ l, pyIsSpace c = false) :
    rstripChars l = l := by
  induction l with
  | nil => rfl
  | cons c t ih =>
    have hc := h c (List.mem_cons_self c t)
    simp only [rstripChars, ih (fun x hx => h x (List.mem_cons_of_mem _ hx)), hc,
      Bool.and_false, if_neg]
    simp

theorem pyStrip_of_nonspace (l : Str) (h : ∀ c ∈ l, pyIsSpace c = false) :
    pyStrip l = l := by
  cases l with
  | nil => rfl
  | cons c t =>
    have hc := h c (List.mem_cons_self c t)
    simp only [pyStrip, List.dropWhile_cons, hc, Bool.false_eq_true, if_neg,
      Bool.not_eq_true]
    exact rstripChars_of_nonspace _ h

theorem pyLower_of_valChars (l : Str) (h : l.all isValChar = true) : pyLower l = l := by
  simp only [List.all_eq_true] at h
  simp only [pyLower]
  rw [List.map_congr_left (fun c hc => valChar_not_upper c (h c hc))]
  exact List.map_id _

theorem matchKV_inv (l k v : Str) (h : matchKV l = some (k, v)) :
    ∃ c1 c2 r, l = c1 :: c2 :: r ∧ k = r.takeWhile isKeyChar ∧ k.isEmpty = false ∧
      v.all isValChar = true ∧ v.isEmpty = false := by
  cases l with
  | nil => simp [matchKV] at h
  | cons c1 t =>
    cases t with
    | nil => simp [matchKV] at h
    | cons c2 r =>
      refine ⟨c1, c2, r, rfl, ?_⟩
      simp only [matchKV] at h
      split at h
      · split at h
        · split at h
          · rw [Option.some.injEq, Prod.mk.injEq] at h
            obtain ⟨hk, hv⟩ := h
            subst hk
            subst hv
            rename_i hcond
            simp only [Bool.and_eq_true, Bool.not_eq_true'] at hcond
            exact ⟨rfl, hcond.1.1, List.all_takeWhile, hcond.1.2⟩
          · exact absurd h (by simp)
        · exact absurd h (by simp)
      · exact absurd h (by simp)

theorem pyStrip_of_matchKV (l k v : Str) (hsp : leadsWith [' ', ' '] l = true)
    (h : matchKV l = some (k, v)) :
    ∃ c t, pyStrip l = c :: t ∧ isKeyChar c = true := by
  obtain ⟨c1, c2, r, hl, hk, hke, _, _⟩ := matchKV_inv l k v h
  subst hl
  simp only [leadsWith, Bool.and_eq_true, decide_eq_true_eq] at hsp
  obtain ⟨h1, h2, -⟩ := hsp
  subst h1
  subst h2
  cases r with
  | nil =>
    subst hk
    simp at hke
  | cons rc rt =>
    by_cases hrc : isKeyChar rc = true
    · refine ⟨rc, rstripChars rt, ?_, hrc⟩
      have hns := keyChar_not_space rc hrc
      simp only [pyStrip, List.dropWhile_cons, hns]
      norm_num
      simp only [rstripChars, hns, Bool.and_false, if_neg, Bool.false_eq_true,
        not_false_eq_true]
    · subst hk
      rw [List.takeWhile_cons, if_neg (by simp [hrc])] at hke
      simp at hke

/-- Claim C6: the status-table parser scans line by line: lines before
the development_status marker contribute nothing; inside the block blank
and comment lines are skipped; the first line not indented by at least
two spaces terminates the block so that no later line contributes; a
two-space-indented line failing the key/value pattern is silently
skipped; each matched pair is stored normalized with the raw value
itself as fallback; and an unrecognized-but-present value is therefore
kept verbatim rather than collapsed to backlog. -/
theorem C6_sprint_parser_behavior :
    (∀ t : Str, t ≠ [] →
      parse_sprint_status (some t) = sprintLoop [] false (pySplitlines t)) ∧
    (∀ (d : List (Str × Str)) (pre ls : List Str),
      (∀ x ∈ pre, pyStrip x ≠ "development_status:".toList) →
      sprintLoop d false (pre ++ ls) = sprintLoop d false ls) ∧
    (∀ (d : List (Str × Str)) (l : Str) (ls : List Str),
      (pyStrip l = [] ∨ leadsWith ['#'] (pyStrip l) = true) →
      sprintLoop d true (l :: ls) = sprintLoop d true ls) ∧
    (∀ (d : List (Str × Str)) (l : Str) (ls : List Str),
      pyStrip l ≠ [] → leadsWith ['#'] (pyStrip l) = false →
      leadsWith [' ', ' '] l = false →
      sprintLoop d true (l :: ls) = d) ∧
    (∀ (d : List (Str × Str)) (l : Str) (ls : List Str),
      leadsWith [' ', ' '] l = true → pyStrip l ≠ [] →
      leadsWith ['#'] (pyStrip l) = false → matchKV l = none →
      sprintLoop d true (l :: ls) = sprintLoop d true ls) ∧
    (∀ (d : List (Str × Str)) (l : Str) (ls : List Str) (k v : Str),
      leadsWith [' ', ' '] l = true → matchKV l = some (k, v) →
      sprintLoop d true (l :: ls) =
        sprintLoop (dictSet d k (normalize_status (some v) v)) true ls) ∧
    (∀ v : Str, v ≠ [] → v.all isValChar = true →
      v ∉ STORY_STATUS_ORDER → v ∉ EPIC_STATUS_ORDER →
      v ∉ ["ready".toList, "ready for dev".toList, "in progress".toList,
        "doing".toList, "wip".toList] →
      normalize_status (some v) v = v) := by
  refine ⟨?_, ?_, ?_, ?_, ?_, ?_, ?_⟩
  · intro t ht
    have hte : t.isEmpty = false := by
      cases t with
      | nil => exact absurd rfl ht
      | cons a as => rfl
    simp [parse_sprint_status, read_text, hte]
  · intro d pre ls
    induction pre with
    | nil => intro _; rfl
    | cons p ps ih =>
      intro hpre
      have hp : ¬ (pyStrip p = "development_status:".toList) :=
        hpre p (List.mem_cons_self _ _)
      simp only [List.cons_append, sprintLoop, if_neg hp]
      exact ih (fun x hx => hpre x (List.mem_cons_of_mem _ hx))
  · intro d l ls h
    rcases h with h | h <;> simp [sprintLoop, h]
  · intro d l ls h1 h2 h3
    rcases hq : pyStrip l with _ | ⟨c, cs⟩
    · exact absurd hq h1
    · rw [hq] at h2
      simp [sprintLoop, hq, h2, h3]
  · intro d l ls hsp h1 h2 hm
    rcases hq : pyStrip l with _ | ⟨c, cs⟩
    · exact absurd hq h1
    · rw [hq] at h2
      simp [sprintLoop, hq, h2, hsp, hm]
  · intro d l ls k v hsp hm
    obtain ⟨c, t, hq, hc⟩ := pyStrip_of_matchKV l k v hsp hm
    have h2 : leadsWith ['#'] (c :: t) = false := by
      simp [leadsWith, keyChar_not_hash c hc]
    simp [sprintLoop, hq, h2, hsp, hm]
  · intro v hne hval h1 h2 h3
    have hfix : pyLower (pyStrip v) = v := by
      rw [pyStrip_of_nonspace v
        (fun c hc => valChar_not_space c (by
          rw [List.all_eq_true] at hval
          exact hval c hc))]
      exact pyLower_of_valChars v hval
    have hie : v.isEmpty = false := by
      cases v with
      | nil => exact absurd rfl hne
      | cons a as => rfl
    rw [normalize_status_eq v v hie, hfix, if_neg (fun hc => hc.elim h1 h2),
      if_neg, if_neg]
    · intro hc
      rcases hc with hc | hc | hc <;> exact h3 (by simp [hc])
    · intro hc
      rcases hc with hc | hc <;> exact h3 (by simp [hc])

/-- Witness for C6 at concrete inputs: a parse reduced to the loop, a
skipped pre-marker line, a skipped comment line, a terminating
unindented line, a skipped malformed indented line, a stored matched
line, and a verbatim unrecognized value. -/
theorem C6_witness :
    parse_sprint_status (some "development_status:\n  1-1-a: done".toList) =
      sprintLoop [] false (pySplitlines "development_status:\n  1-1-a: done".toList) ∧
    sprintLoop [] false (["junk line".toList] ++ ["development_status:".toList]) =
      sprintLoop [] false ["development_status:".toList] ∧
    sprintLoop [] true ("  # note".toList :: ["  1-1-a: done".toList]) =
      sprintLoop [] true ["  1-1-a: done".toList] ∧
    sprintLoop [("seen".toList, "done".toList)] true
      ("next_section:".toList :: ["  1-1-a: done".toList]) =
      [("seen".toList, "done".toList)] ∧
    sprintLoop [] true ("  Bad Line".toList :: []) = sprintLoop [] true [] ∧
    sprintLoop [] true ("  1-1-a: wip".toList :: []) =
      sprintLoop (dictSet [] "1-1-a".toList
        (normalize_status (some "wip".toList) "wip".toList)) true [] ∧
    normalize_status (some "zzz".toList) "zzz".toList = "zzz".toList :=
  ⟨C6_sprint_parser_behavior.1 _ (by decide),
   C6_sprint_parser_behavior.2.1 _ _ _ (by decide),
   C6_sprint_parser_behavior.2.2.1 _ _ _ (by decide),
   C6_sprint_parser_behavior.2.2.2.1 _ _ _ (by decide) (by decide) (by decide),
   C6_sprint_parser_behavior.2.2.2.2.1 _ _ _ (by decide) (by decide) (by decide) (by decide),
   C6_sprint_parser_behavior.2.2.2.2.2.1 _ _ _ _ _ (by decide) (by decide),
   C6_sprint_parser_behavior.2.2.2.2.2.2 _ (by decide) (by decide) (by decide) (by decide)
     (by decide)⟩

/-! ### Board-aggregator lemmas -/

theorem pass1Step_skip (outputDir : Str) (fs : FS) (eT : List (Nat × Str))
    (sT : List (Str × Str)) (acc : Pass1Acc) (k v : Str)
    (he : matchEpicKey k = none) (hs : matchStoryKey k = none) :
    pass1Step outputDir fs eT sT acc (k, v) = acc := by
  simp [pass1Step, he, hs]

theorem pass1_skip (outputDir : Str) (fs : FS) (eT : List (Nat × Str))
    (sT : List (Str × Str)) (d1 d2 : List (Str × Str)) (k v : Str)
    (he : matchEpicKey k = none) (hs : matchStoryKey k = none) :
    pass1 outputDir fs eT sT (d1 ++ (k, v) :: d2) = pass1 outputDir fs eT sT (d1 ++ d2) := by
  simp only [pass1, List.foldl_append, List.foldl_cons,
    pass1Step_skip outputDir fs eT sT _ k v he hs]

/-- Claim C10: a status-table entry whose key matches neither the epic
shape nor the story shape contributes nothing to the snapshot: the
board assembled with the entry present equals the board assembled
without it, so no record, warning or counter is affected. -/
theorem C10_unrecognized_key_no_effect (outputDir now : Str) (fs : FS)
    (eT : List (Nat × Str)) (sT : List (Str × Str)) (d1 d2 : List (Str × Str))
    (k v : Str) (he : matchEpicKey k = none) (hs : matchStoryKey k = none) :
    assembleBoard outputDir now fs (d1 ++ (k, v) :: d2) eT sT =
      assembleBoard outputDir now fs (d1 ++ d2) eT sT := by
  have hp := pass1_skip outputDir fs eT sT d1 d2 k v he hs
  have hsc : storiesCombined outputDir fs eT sT (d1 ++ (k, v) :: d2) =
      storiesCombined outputDir fs eT sT (d1 ++ d2) := by
    simp only [storiesCombined, hp]
  simp only [assembleBoard, hp, hsc]

/-- Witness for C10: the entry `roadmap: done` (key of neither shape)
leaves a concrete one-epic board unchanged. -/
theorem C10_witness :
    assembleBoard "/out".toList "now".toList
      ⟨true, true, none, none, none, false, []⟩
      ([("epic-1".toList, "done".toList)] ++ ("roadmap".toList, "done".toList) :: [])
      [] [] =
    assembleBoard "/out".toList "now".toList
      ⟨true, true, none, none, none, false, []⟩
      ([("epic-1".toList, "done".toList)] ++ []) [] [] :=
  C10_unrecognized_key_no_effect "/out".toList "now".toList
    ⟨true, true, none, none, none, false, []⟩ [] []
    [("epic-1".toList, "done".toList)] [] "roadmap".toList "done".toList
    (by decide) (by decide)

/-- The story record contributed by one status-table entry, as an
optional value (used to characterize the table pass as a `filterMap`). -/
def storyOf (outputDir : Str) (fs : FS) (sT : List (Str × Str)) (kv : Str × Str) :
    Option StoryEntry :=
  match matchEpicKey kv.1 with
  | some _ => none
  | none =>
    match matchStoryKey kv.1 with
    | none => none
    | some (e, s, _) => some (mkStoryFromTable outputDir fs sT kv.1 kv.2 e s)

/-- The epic record contributed by one status-table entry. -/
def epicOf (eT : List (Nat × Str)) (kv : Str × Str) : Option EpicEntry :=
  match matchEpicKey kv.1 with
  | some n =>
    some { key := kv.1, number := n,
           title := (dictGet eT n).getD ("Epic ".toList ++ natToChars n),
           status := normalize_status (some kv.2) "backlog".toList }
  | none => none

theorem pass1_stories_eq (outputDir : Str) (fs : FS) (eT : List (Nat × Str))
    (sT : List (Str × Str)) (sts : List (Str × Str)) (acc : Pass1Acc) :
    (sts.foldl (pass1Step outputDir fs eT sT) acc).stories =
      acc.stories ++ sts.filterMap (storyOf outputDir fs sT) := by
  induction sts generalizing acc with
  | nil => simp
  | cons kv rest ih =>
    obtain ⟨k, v⟩ := kv
    rcases he : matchEpicKey k with _ | n
    · rcases hs : matchStoryKey k with _ | ⟨e, s, g⟩ <;>
        simp [pass1Step, storyOf, he, hs, ih]
    · simp [pass1Step, storyOf, he, ih]

theorem pass1_epics_eq (outputDir : Str) (fs : FS) (eT : List (Nat × Str))
    (sT : List (Str × Str)) (sts : List (Str × Str)) (acc : Pass1Acc) :
    (sts.foldl (pass1Step outputDir fs eT sT) acc).epics =
      acc.epics ++ sts.filterMap (epicOf eT) := by
  induction sts generalizing acc with
  | nil => simp
  | cons kv rest ih =>
    obtain ⟨k, v⟩ := kv
    rcases he : matchEpicKey k with _ | n
    · rcases hs : matchStoryKey k with _ | ⟨e, s, g⟩ <;>
        simp [pass1Step, epicOf, he, hs, ih]
    · simp [pass1Step, epicOf, he, ih]

theorem mem_listInsert_self {α : Type} [DecidableEq α] (l : List α) (x : α) :
    x ∈ listInsert l x := by
  by_cases h : x ∈ l <;> simp [listInsert, h]

theorem mem_listInsert_of_mem {α : Type} [DecidableEq α] (l : List α) (x y : α)
    (h : x ∈ l) : x ∈ listInsert l y := by
  by_cases hy : y ∈ l <;> simp [listInsert, hy, h]

theorem mem_of_mem_listInsert {α : Type} [DecidableEq α] (l : List α) (x y : α)
    (h : x ∈ listInsert l y) : x ∈ l ∨ x = y := by
  by_cases hy : y ∈ l
  · simp only [listInsert, if_pos hy] at h
    exact Or.inl h
  · simp only [listInsert, if_neg hy] at h
    simpa using h

theorem pass1_storyKeys_mono (outputDir : Str) (fs : FS) (eT : List (Nat × Str))
    (sT : List (Str × Str)) (sts : List (Str × Str)) (acc : Pass1Acc) (x : Str)
    (h : x ∈ acc.storyKeys) :
    x ∈ (sts.foldl (pass1Step outputDir fs eT sT) acc).storyKeys := by
  induction sts generalizing acc with
  | nil => exact h
  | cons kv rest ih =>
    obtain ⟨k, v⟩ := kv
    rcases he : matchEpicKey k with _ | n
    · rcases hs : matchStoryKey k with _ | ⟨e, s, g⟩
      · exact ih _ (by simpa [pass1Step, he, hs] using h)
      · refine ih _ ?_
        simp only [pass1Step, he, hs]
        exact mem_listInsert_of_mem _ _ _ h
    · exact ih _ (by simpa [pass1Step, he] using h)

theorem pass1_storyKeys_super (outputDir : Str) (fs : FS) (eT : List (Nat × Str))
    (sT : List (Str × Str)) (sts : List (Str × Str)) (acc : Pass1Acc) (k v : Str)
    (e s : Nat) (g : Str) (hmem : (k, v) ∈ sts) (he : matchEpicKey k = none)
    (hs : matchStoryKey k = some (e, s, g)) :
    k ∈ (sts.foldl (pass1Step outputDir fs eT sT) acc).storyKeys := by
  revert hmem
  induction sts generalizing acc with
  | nil =>
    intro hmem
    exact absurd hmem (List.not_mem_nil _)
  | cons kv rest ih =>
    intro hmem
    rcases List.mem_cons.1 hmem with hh | hh
    · subst hh
      rw [List.foldl_cons]
      refine pass1_storyKeys_mono _ _ _ _ _ _ _ ?_
      simp only [pass1Step, he, hs]
      exact mem_listInsert_self _ _
    · rw [List.foldl_cons]
      exact ih _ hh

theorem pass1_storyKeys_sub (outputDir : Str) (fs : FS) (eT : List (Nat × Str))
    (sT : List (Str × Str)) (sts : List (Str × Str)) (acc : Pass1Acc) (x : Str)
    (h : x ∈ (sts.foldl (pass1Step outputDir fs eT sT) acc).storyKeys) :
    x ∈ acc.storyKeys ∨ x ∈ sts.map Prod.fst := by
  induction sts generalizing acc with
  | nil => exact Or.inl h
  | cons kv rest ih =>
    obtain ⟨k, v⟩ := kv
    rcases he : matchEpicKey k with _ | n
    · rcases hs : matchStoryKey k with _ | ⟨e, s, g⟩
      · rw [List.foldl_cons, pass1Step_skip _ _ _ _ _ _ _ he hs] at h
        rcases ih _ h with h' | h'
        · exact Or.inl h'
        · exact Or.inr (List.mem_cons_of_mem _ h')
      · rw [List.foldl_cons] at h
        rcases ih _ h with h' | h'
        · simp only [pass1Step, he, hs] at h'
          rcases mem_of_mem_listInsert _ _ _ h' with h'' | h''
          · exact Or.inl h''
          · exact Or.inr (h'' ▸ List.mem_cons_self _ _)
        · exact Or.inr (List.mem_cons_of_mem _ h')
    · rw [List.foldl_cons] at h
      rcases ih _ h with h' | h'
      · simp only [pass1Step, he] at h'
        exact Or.inl h'
      · exact Or.inr (List.mem_cons_of_mem _ h')

theorem story_key_not_epic (k : Str) (e s : Nat) (g : Str)
    (h : matchStoryKey k = some (e, s, g)) : matchEpicKey k = none := by
  cases k with
  | nil => simp [matchStoryKey, parseDigits] at h
  | cons c t =>
    have hd : isDigitChar c = true := by
      by_contra hc
      rw [Bool.not_eq_true] at hc
      have ht : List.takeWhile isDigitChar (c :: t) = [] := by
        simp [List.takeWhile_cons, hc]
      simp [matchStoryKey, parseDigits, ht] at h
    have hne : ¬ (('e' : Char) = c) := by
      intro hh
      subst hh
      exact absurd hd (by decide)
    have hlw : leadsWith ['e', 'p', 'i', 'c', '-'] (c :: t) = false := by
      simp [leadsWith, hne]
    simp [matchEpicKey, chopLead, hlw]

theorem board_stories_eq (outputDir now : Str) (fs : FS) (statuses : List (Str × Str))
    (eT : List (Nat × Str)) (sT : List (Str × Str)) :
    (assembleBoard outputDir now fs statuses eT sT).stories =
      ((pass1 outputDir fs eT sT statuses).stories ++
        (if fs.implDirExists then
          (sortFiles fs.implFiles).filterMap
            (pass2Step outputDir sT (pass1 outputDir fs eT sT statuses).storyKeys)
        else [])).insertionSort storyLe := rfl

theorem build_board_data_eq (outputDir now : Str) (fs : FS) :
    build_board_data outputDir fs now =
      assembleBoard outputDir now fs (parse_sprint_status fs.sprintContent)
        (parse_epic_and_story_titles [fs.visualContent, fs.epicsContent]).1
        (parse_epic_and_story_titles [fs.visualContent, fs.epicsContent]).2 := rfl

theorem pass1_stories_closed (outputDir : Str) (fs : FS) (eT : List (Nat × Str))
    (sT : List (Str × Str)) (sts : List (Str × Str)) :
    (pass1 outputDir fs eT sT sts).stories = sts.filterMap (storyOf outputDir fs sT) := by
  rw [pass1, pass1_stories_eq]
  rfl

theorem mkStoryFromTable_mismatch_iff (o : Str) (fs : FS) (sT : List (Str × Str))
    (k v : Str) (e s : Nat) :
    ((mkStoryFromTable o fs sT k v e s).status_mismatch = true ↔
      ∃ f, (mkStoryFromTable o fs sT k v e s).status_from_file = some f ∧
        f ≠ (mkStoryFromTable o fs sT k v e s).status) := by
  rcases hf : (parse_story_file (implRaw fs k) (implMtimeOf fs k)).status with _ | f
  · simp [mkStoryFromTable, hf]
  · have hne := parse_story_file_status_ne_empty _ _ _ hf
    have hie : f.isEmpty = false := by
      cases f with
      | nil => exact absurd rfl hne
      | cons a as => rfl
    simp [mkStoryFromTable, hf, hie]

/-- Claim C3: every story key in the status table yields a record whose
effective status is the table's normalized status, whose
status_from_file is the story file's declared normalized status or
null, and whose mismatch flag is set exactly when the file declares a
status different from the table's. -/
theorem C3_table_story_record (outputDir now : Str) (fs : FS) (k v : Str)
    (e s : Nat) (g : Str)
    (hmem : (k, v) ∈ parse_sprint_status fs.sprintContent)
    (hkey : matchStoryKey k = some (e, s, g)) :
    ∃ r ∈ (build_board_data outputDir fs now).stories,
      r.key = k ∧
      r.status = normalize_status (some v) "backlog".toList ∧
      r.status_from_sprint = some (normalize_status (some v) "backlog".toList) ∧
      r.status_from_file = (parse_story_file (implRaw fs k) (implMtimeOf fs k)).status ∧
      (r.status_mismatch = true ↔ ∃ f, r.status_from_file = some f ∧ f ≠ r.status) := by
  have he := story_key_not_epic k e s g hkey
  refine ⟨mkStoryFromTable outputDir fs
      (parse_epic_and_story_titles [fs.visualContent, fs.epicsContent]).2 k v e s,
    ?_, rfl, rfl, rfl, rfl, mkStoryFromTable_mismatch_iff _ _ _ _ _ _ _⟩
  rw [build_board_data_eq, board_stories_eq]
  refine (List.perm_insertionSort _ _).mem_iff.2 ?_
  refine List.mem_append.2 (Or.inl ?_)
  rw [pass1_stories_closed]
  exact List.mem_filterMap.2 ⟨(k, v), hmem, by simp [storyOf, he, hkey]⟩

/-- Witness for C3: a concrete table entry `1-1-setup: done` with a
story file declaring `Status: in-progress`. -/
theorem C3_witness :
    ∃ r ∈ (build_board_data "/out".toList
      ⟨true, true, some "development_status:\n  1-1-setup: done".toList, none, none, true,
        [⟨"1-1-setup".toList, some "Status: in-progress".toList, some "T".toList⟩]⟩
      "now".toList).stories,
      r.key = "1-1-setup".toList ∧
      r.status = normalize_status (some "done".toList) "backlog".toList ∧
      r.status_from_sprint = some (normalize_status (some "done".toList) "backlog".toList) ∧
      r.status_from_file = (parse_story_file
        (implRaw ⟨true, true, some "development_status:\n  1-1-setup: done".toList, none, none,
          true, [⟨"1-1-setup".toList, some "Status: in-progress".toList, some "T".toList⟩]⟩
          "1-1-setup".toList)
        (implMtimeOf ⟨true, true, some "development_status:\n  1-1-setup: done".toList, none,
          none, true, [⟨"1-1-setup".toList, some "Status: in-progress".toList, some "T".toList⟩]⟩
          "1-1-setup".toList)).status ∧
      (r.status_mismatch = true ↔ ∃ f, r.status_from_file = some f ∧ f ≠ r.status) :=
  C3_table_story_record "/out".toList "now".toList
    ⟨true, true, some "development_status:\n  1-1-setup: done".toList, none, none, true,
      [⟨"1-1-setup".toList, some "Status: in-progress".toList, some "T".toList⟩]⟩
    "1-1-setup".toList "done".toList 1 1 "setup".toList
    (by decide) (by decide)

theorem normalize_file_fallback (p : Option Str)
    (hp : ∀ f, p = some f → f ∈ STORY_STATUS_ORDER) :
    normalize_status (some (pyOrStr p "backlog".toList)) "backlog".toList =
      p.getD "backlog".toList := by
  cases p with
  | none =>
    simp only [pyOrStr, Option.getD_none]
    exact normalize_status_fix_story _ (by decide) _
  | some f =>
    have hf := hp f rfl
    have hie : f.isEmpty = false := by
      cases f with
      | nil => exact absurd rfl (story_vocab_ne_empty _ hf)
      | cons a as => rfl
    simp only [pyOrStr, hie, Bool.false_eq_true, if_neg, Option.getD_some,
      not_false_eq_true]
    exact normalize_status_fix_story _ hf _

/-- Claim C4: every markdown file in the implementation-artifacts
directory whose stem has the story shape and whose key is absent from
the status table yields a record whose effective status is the file's
declared status with fallback backlog, with null table status, mismatch
false and file_exists true. -/
theorem C4_file_only_story_record (outputDir now : Str) (fs : FS) (fe : FileEntry)
    (e s : Nat) (g : Str)
    (hfe : fe ∈ fs.implFiles)
    (hdir : fs.implDirExists = true)
    (hkey : matchStoryKey fe.stem = some (e, s, g))
    (habs : fe.stem ∉ (parse_sprint_status fs.sprintContent).map Prod.fst) :
    ∃ r ∈ (build_board_data outputDir fs now).stories,
      r.key = fe.stem ∧
      r.status = ((parse_story_file fe.content fe.mtime).status).getD "backlog".toList ∧
      r.status_from_sprint = none ∧
      r.status_mismatch = false ∧
      r.file_exists = true := by
  have hks : fe.stem ∉ (pass1 outputDir fs
      (parse_epic_and_story_titles [fs.visualContent, fs.epicsContent]).1
      (parse_epic_and_story_titles [fs.visualContent, fs.epicsContent]).2
      (parse_sprint_status fs.sprintContent)).storyKeys := by
    intro hk
    simp only [pass1] at hk
    rcases pass1_storyKeys_sub _ _ _ _ _ _ _ hk with h | h
    · simp at h
    · exact habs h
  refine ⟨mkStoryFromFile outputDir
      (parse_epic_and_story_titles [fs.visualContent, fs.epicsContent]).2 fe e s,
    ?_, rfl, ?_, rfl, rfl, rfl⟩
  · rw [build_board_data_eq, board_stories_eq]
    refine (List.perm_insertionSort _ _).mem_iff.2 ?_
    refine List.mem_append.2 (Or.inr ?_)
    rw [if_pos hdir]
    refine List.mem_filterMap.2 ⟨fe, ?_, ?_⟩
    · exact (List.perm_insertionSort _ _).mem_iff.2 hfe
    · simp [pass2Step, hkey, hks]
  · exact normalize_file_fallback _ (fun f hf => parse_story_file_status_mem _ _ f hf)

/-- Witness for C4: a story file `2-1-extra.md` declaring
`Status: review` with no status table at all. -/
theorem C4_witness :
    ∃ r ∈ (build_board_data "/out".toList
      ⟨true, false, none, none, none, true,
        [⟨"2-1-extra".toList, some "Status: review".toList, none⟩]⟩ "now".toList).stories,
      r.key = "2-1-extra".toList ∧
      r.status = ((parse_story_file (some "Status: review".toList) none).status).getD
        "backlog".toList ∧
      r.status_from_sprint = none ∧
      r.status_mismatch = false ∧
      r.file_exists = true :=
  C4_file_only_story_record "/out".toList "now".toList
    ⟨true, false, none, none, none, true,
      [⟨"2-1-extra".toList, some "Status: review".toList, none⟩]⟩
    ⟨"2-1-extra".toList, some "Status: review".toList, none⟩
    2 1 "extra".toList (by decide) rfl (by decide) (by decide)

theorem storyOf_status_mem (o : Str) (fs : FS) (sT : List (Str × Str)) (kv : Str × Str)
    (r : StoryEntry) (h : storyOf o fs sT kv = some r) : r.status ∈ STORY_STATUS_ORDER := by
  rcases he : matchEpicKey kv.1 with _ | n
  · rcases hs : matchStoryKey kv.1 with _ | ⟨e, s, g⟩
    · simp [storyOf, he, hs] at h
    · simp only [storyOf, he, hs, Option.some.injEq] at h
      subst h
      exact normalize_status_mem_story (some kv.2) "backlog".toList (by decide)
  · simp [storyOf, he] at h

theorem pass2Step_status_mem (o : Str) (sT : List (Str × Str)) (keys : List Str)
    (fe : FileEntry) (r : StoryEntry) (h : pass2Step o sT keys fe = some r) :
    r.status ∈ STORY_STATUS_ORDER := by
  rcases hs : matchStoryKey fe.stem with _ | ⟨e, s, g⟩
  · simp [pass2Step, hs] at h
  · by_cases hk : fe.stem ∈ keys
    · simp [pass2Step, hs, hk] at h
    · simp only [pass2Step, hs, if_neg hk, Option.some.injEq] at h
      subst h
      exact normalize_status_mem_story
        (some (pyOrStr (parse_story_file fe.content fe.mtime).status "backlog".toList))
        "backlog".toList (by decide)

theorem board_stories_status_mem (outputDir now : Str) (fs : FS)
    (statuses : List (Str × Str)) (eT : List (Nat × Str)) (sT : List (Str × Str)) :
    ∀ r ∈ (assembleBoard outputDir now fs statuses eT sT).stories,
      r.status ∈ STORY_STATUS_ORDER := by
  intro r hr
  rw [board_stories_eq] at hr
  have hr2 := (List.perm_insertionSort _ _).mem_iff.1 hr
  rcases List.mem_append.1 hr2 with h | h
  · rw [pass1_stories_closed] at h
    obtain ⟨kv, _, hkv⟩ := List.mem_filterMap.1 h
    exact storyOf_status_mem _ _ _ _ _ hkv
  · by_cases hd : fs.implDirExists
    · rw [if_pos hd] at h
      obtain ⟨fe, _, hfe⟩ := List.mem_filterMap.1 h
      exact pass2Step_status_mem _ _ _ _ _ hfe
    · rw [if_neg hd] at h
      exact absurd h (List.not_mem_nil _)

theorem keys_dictIncr (d : List (Str × Nat)) (k : Str) (hk : k ∈ d.map Prod.fst) :
    (dictIncr d k).map Prod.fst = d.map Prod.fst := by
  obtain ⟨n, hn⟩ := dictGet_isSome_of_mem_keys d k hk
  simp only [dictIncr, hn]
  rw [keys_dictSet, if_pos hk]

theorem sum_dictIncr (d : List (Str × Nat)) (k : Str) (hk : k ∈ d.map Prod.fst) :
    ((dictIncr d k).map Prod.snd).sum = ((d.map Prod.snd).sum) + 1 := by
  induction d with
  | nil => simp at hk
  | cons hd t ih =>
    obtain ⟨k0, v0⟩ := hd
    by_cases h0 : k0 = k
    · subst h0
      simp [dictIncr, dictGet, dictSet]
      omega
    · have hk' : k ∈ t.map Prod.fst := by
        simp only [List.map_cons, List.mem_cons] at hk
        rcases hk with h | h
        · exact absurd h.symm h0
        · exact h
      obtain ⟨n, hn⟩ := dictGet_isSome_of_mem_keys t k hk'
      have ih' := ih hk'
      simp only [dictIncr, hn] at ih'
      simp only [dictIncr, dictGet, if_neg h0, hn, dictSet, List.map_cons, List.sum_cons]
      omega

theorem byStatus_fold (stories : List StoryEntry) (d : List (Str × Nat))
    (hkeys : d.map Prod.fst = STORY_STATUS_ORDER)
    (hst : ∀ r ∈ stories, r.status ∈ STORY_STATUS_ORDER) :
    ((stories.foldl (fun d s => dictIncr d s.status) d).map Prod.fst = STORY_STATUS_ORDER) ∧
    (((stories.foldl (fun d s => dictIncr d s.status) d).map Prod.snd).sum =
      (d.map Prod.snd).sum + stories.length) := by
  induction stories generalizing d with
  | nil => exact ⟨hkeys, rfl⟩
  | cons r rest ih =>
    have hmem : r.status ∈ d.map Prod.fst := by
      rw [hkeys]
      exact hst r (List.mem_cons_self _ _)
    have hkeys' : (dictIncr d r.status).map Prod.fst = STORY_STATUS_ORDER := by
      rw [keys_dictIncr d _ hmem, hkeys]
    obtain ⟨ih1, ih2⟩ := ih (dictIncr d r.status) hkeys'
      (fun x hx => hst x (List.mem_cons_of_mem _ hx))
    refine ⟨ih1, ?_⟩
    rw [List.foldl_cons, ih2, sum_dictIncr d _ hmem]
    simp only [List.length_cons]
    omega

theorem board_byStatus_eq (outputDir now : Str) (fs : FS) (statuses : List (Str × Str))
    (eT : List (Nat × Str)) (sT : List (Str × Str)) :
    (assembleBoard outputDir now fs statuses eT sT).stories_by_status =
      (assembleBoard outputDir now fs statuses eT sT).stories.foldl
        (fun d s => dictIncr d s.status) (STORY_STATUS_ORDER.map (fun st => (st, 0))) := rfl

theorem board_storyCount_eq (outputDir now : Str) (fs : FS) (statuses : List (Str × Str))
    (eT : List (Nat × Str)) (sT : List (Str × Str)) :
    (assembleBoard outputDir now fs statuses eT sT).story_count =
      (assembleBoard outputDir now fs statuses eT sT).stories.length := rfl

/-- Claim C8: in every built snapshot the stories_by_status map has
exactly the six story tokens as keys, all counts are nonnegative and
sum to story_count, and every story's effective status is one of the
six closed-vocabulary tokens. -/
theorem C8_stories_by_status_invariant (outputDir now : Str) (fs : FS) :
    ((build_board_data outputDir fs now).stories_by_status.map Prod.fst =
      STORY_STATUS_ORDER) ∧
    (((build_board_data outputDir fs now).stories_by_status.map Prod.snd).sum =
      (build_board_data outputDir fs now).story_count) ∧
    (∀ c ∈ (build_board_data outputDir fs now).stories_by_status.map Prod.snd, 0 ≤ c) ∧
    (∀ r ∈ (build_board_data outputDir fs now).stories,
      r.status ∈ STORY_STATUS_ORDER) := by
  rw [build_board_data_eq]
  have hst := board_stories_status_mem outputDir now fs
    (parse_sprint_status fs.sprintContent)
    (parse_epic_and_story_titles [fs.visualContent, fs.epicsContent]).1
    (parse_epic_and_story_titles [fs.visualContent, fs.epicsContent]).2
  obtain ⟨h1, h2⟩ := byStatus_fold _ (STORY_STATUS_ORDER.map (fun st => (st, 0)))
    (by decide) hst
  rw [board_byStatus_eq, board_storyCount_eq]
  refine ⟨h1, ?_, fun c _ => Nat.zero_le c, hst⟩
  rw [h2]
  have hz : ((STORY_STATUS_ORDER.map (fun st => (st, 0))).map Prod.snd).sum = 0 := by decide
  rw [hz]
  omega

/-- Witness for C8 at a concrete one-story filesystem. -/
theorem C8_witness :
    ((build_board_data "/out".toList
      ⟨true, true, some "development_status:\n  1-1-a: done".toList, none, none, false, []⟩
      "now".toList).stories_by_status.map Prod.fst = STORY_STATUS_ORDER) ∧
    (((build_board_data "/out".toList
      ⟨true, true, some "development_status:\n  1-1-a: done".toList, none, none, false, []⟩
      "now".toList).stories_by_status.map Prod.snd).sum =
      (build_board_data "/out".toList
        ⟨true, true, some "development_status:\n  1-1-a: done".toList, none, none, false, []⟩
        "now".toList).story_count) :=
  ⟨(C8_stories_by_status_invariant "/out".toList "now".toList
      ⟨true, true, some "development_status:\n  1-1-a: done".toList, none, none, false, []⟩).1,
   (C8_stories_by_status_invariant "/out".toList "now".toList
      ⟨true, true, some "development_status:\n  1-1-a: done".toList, none, none, false, []⟩).2.1⟩

/-! ### Uniqueness of story keys -/

theorem sortFiles_perm (files : List FileEntry) : (sortFiles files).Perm files := by
  rw [sortFiles]
  exact List.perm_insertionSort _ _

theorem storyOf_inv (o : Str) (fs : FS) (sT : List (Str × Str)) (kv : Str × Str)
    (r : StoryEntry) (h : storyOf o fs sT kv = some r) :
    r.key = kv.1 ∧ matchEpicKey kv.1 = none ∧
      ∃ e s g, matchStoryKey kv.1 = some (e, s, g) := by
  rcases he : matchEpicKey kv.1 with _ | n
  · rcases hs : matchStoryKey kv.1 with _ | ⟨e, s, g⟩
    · simp [storyOf, he, hs] at h
    · simp only [storyOf, he, hs, Option.some.injEq] at h
      subst h
      exact ⟨rfl, rfl, e, s, g, rfl⟩
  · simp [storyOf, he] at h

theorem pass2Step_inv (o : Str) (sT : List (Str × Str)) (keys : List Str)
    (fe : FileEntry) (r : StoryEntry) (h : pass2Step o sT keys fe = some r) :
    r.key = fe.stem ∧ fe.stem ∉ keys := by
  rcases hs : matchStoryKey fe.stem with _ | ⟨e, s, g⟩
  · simp [pass2Step, hs] at h
  · by_cases hk : fe.stem ∈ keys
    · simp [pass2Step, hs, hk] at h
    · simp only [pass2Step, hs, if_neg hk, Option.some.injEq] at h
      subst h
      exact ⟨rfl, hk⟩

theorem sprintLoop_keys_nodup (ls : List Str) (d : List (Str × Str)) (b : Bool)
    (hd : (d.map Prod.fst).Nodup) : ((sprintLoop d b ls).map Prod.fst).Nodup := by
  induction ls generalizing d b with
  | nil => cases b <;> exact hd
  | cons l rest ih =>
    cases b with
    | false =>
      by_cases h : pyStrip l = "development_status:".toList
      · rw [show sprintLoop d false (l :: rest) = sprintLoop d true rest from by
          simp only [sprintLoop]
          rw [if_pos h]]
        exact ih d true hd
      · rw [show sprintLoop d false (l :: rest) = sprintLoop d false rest from by
          simp only [sprintLoop]
          rw [if_neg h]]
        exact ih d false hd
    | true =>
      cases h1 : (pyStrip l).isEmpty || leadsWith ['#'] (pyStrip l) with
      | true =>
        rw [show sprintLoop d true (l :: rest) = sprintLoop d true rest from by
          simp only [sprintLoop]
          rw [if_pos (by simp [h1])]]
        exact ih d true hd
      | false =>
        cases h2 : leadsWith [' ', ' '] l with
        | false =>
          rw [show sprintLoop d true (l :: rest) = d from by
            simp only [sprintLoop]
            rw [if_neg (by simp [h1]), if_pos (by simp [h2])]]
          exact hd
        | true =>
          rcases h3 : matchKV l with _ | ⟨k, v⟩
          · rw [show sprintLoop d true (l :: rest) = sprintLoop d true rest from by
              simp only [sprintLoop]
              rw [if_neg (by simp [h1]), if_neg (by simp [h2]), h3]]
            exact ih d true hd
          · rw [show sprintLoop d true (l :: rest) =
                sprintLoop (dictSet d k (normalize_status (some v) v)) true rest from by
              simp only [sprintLoop]
              rw [if_neg (by simp [h1]), if_neg (by simp [h2]), h3]]
            exact ih _ true (nodup_keys_dictSet _ _ _ hd)

theorem parse_sprint_status_keys_nodup (c : Option Str) :
    ((parse_sprint_status c).map Prod.fst).Nodup := by
  by_cases h : (read_text c).isEmpty
  · simp [parse_sprint_status, h]
  · rw [show parse_sprint_status c = sprintLoop [] false (pySplitlines (read_text c)) from by
      simp [parse_sprint_status, h]]
    exact sprintLoop_keys_nodup _ [] false (by simp)

theorem storyOf_keys_sublist (o : Str) (fs : FS) (sT : List (Str × Str))
    (sts : List (Str × Str)) :
    ((sts.filterMap (storyOf o fs sT)).map (fun r => r.key)).Sublist
      (sts.map Prod.fst) := by
  induction sts with
  | nil => simp
  | cons kv rest ih =>
    rcases h : storyOf o fs sT kv with _ | r
    · simp only [List.filterMap_cons, h, List.map_cons]
      exact ih.cons _
    · have hk := (storyOf_inv o fs sT kv r h).1
      simp only [List.filterMap_cons, h, List.map_cons, hk]
      exact ih.cons₂ _

theorem pass2_keys_sublist (o : Str) (sT : List (Str × Str)) (keys : List Str)
    (files : List FileEntry) :
    ((files.filterMap (pass2Step o sT keys)).map (fun r => r.key)).Sublist
      (files.map (fun fe => fe.stem)) := by
  induction files with
  | nil => simp
  | cons fe rest ih =>
    rcases h : pass2Step o sT keys fe with _ | r
    · simp only [List.filterMap_cons, h, List.map_cons]
      exact ih.cons _
    · have hk := (pass2Step_inv o sT keys fe r h).1
      simp only [List.filterMap_cons, h, List.map_cons, hk]
      exact ih.cons₂ _

/-- Claim C1 (amended): the story list of a built snapshot contains at
most one record per raw story key (the identity both passes actually
use); assuming the real-filesystem condition that the markdown file
stems are pairwise distinct, the emitted keys are pairwise distinct. -/
theorem C1_amended_story_keys_nodup (outputDir now : Str) (fs : FS)
    (hstems : (fs.implFiles.map (fun fe => fe.stem)).Nodup) :
    ((build_board_data outputDir fs now).stories.map (fun r => r.key)).Nodup := by
  rw [build_board_data_eq, board_stories_eq]
  refine ((List.perm_insertionSort storyLe _).map (fun r => r.key)).nodup_iff.2 ?_
  rw [List.map_append]
  rw [pass1_stories_closed]
  have hn1 : (((parse_sprint_status fs.sprintContent).filterMap
      (storyOf outputDir fs
        (parse_epic_and_story_titles [fs.visualContent, fs.epicsContent]).2)).map
      (fun r => r.key)).Nodup :=
    (storyOf_keys_sublist _ _ _ _).nodup (parse_sprint_status_keys_nodup _)
  by_cases hdir : fs.implDirExists
  · rw [if_pos hdir]
    refine List.Nodup.append hn1 ?_ ?_
    · refine (pass2_keys_sublist _ _ _ _).nodup ?_
      refine ((sortFiles_perm fs.implFiles).map (fun fe => fe.stem)).nodup_iff.2 hstems
    · intro x hx1 hx2
      obtain ⟨r1, hr1, hk1⟩ := List.mem_map.1 hx1
      obtain ⟨r2, hr2, hk2⟩ := List.mem_map.1 hx2
      obtain ⟨kv, hkv, hso⟩ := List.mem_filterMap.1 hr1
      obtain ⟨fe, hfe, hp2⟩ := List.mem_filterMap.1 hr2
      obtain ⟨hkey1, he1, e1, s1, g1, hs1⟩ := storyOf_inv _ _ _ _ _ hso
      obtain ⟨hkey2, hnotin⟩ := pass2Step_inv _ _ _ _ _ hp2
      apply hnotin
      have hx : fe.stem = kv.1 := by
        rw [← hkey2, hk2, ← hk1, hkey1]
      rw [hx, pass1]
      exact pass1_storyKeys_super _ _ _ _ _ _ kv.1 kv.2 e1 s1 g1 (by simpa using hkv) he1 hs1
  · rw [if_neg hdir]
    simpa using hn1

/-- Witness for C1 (amended) at a filesystem with two distinct story
keys sharing the same (epic, story) numbers: key uniqueness holds. -/
theorem C1_amended_witness :
    ((build_board_data "/out".toList
      ⟨true, true, some "development_status:\n  1-1-a: done\n  1-1-b: done".toList,
        none, none, false, []⟩ "now".toList).stories.map (fun r => r.key)).Nodup :=
  C1_amended_story_keys_nodup "/out".toList "now".toList
    ⟨true, true, some "development_status:\n  1-1-a: done\n  1-1-b: done".toList,
      none, none, false, []⟩ (by decide)

/-- Counterexample to C1 as stated: with status-table entries `1-1-a`
and `1-1-b` the snapshot holds two story records with the same
(epic, story) identity (1, 1), so per-pair uniqueness fails. -/
theorem C1_counterexample :
    ¬ ((build_board_data "/out".toList
      ⟨true, true, some "development_status:\n  1-1-a: done\n  1-1-b: done".toList,
        none, none, false, []⟩ "now".toList).stories.map
        (fun r => (r.epic_number, r.story_number))).Nodup := by
  decide

/-! ### Title-extractor precedence -/

/-- First-some choice on options (used to state which document wins a
title conflict). -/
def orElseOpt {α : Type} : Option α → Option α → Option α
  | some a, _ => some a
  | none, b => b

theorem titleStep_epic_merge (st : TitleState) (l : Str) (n : Nat) :
    dictGet (titleStep st l).epicTitles n =
      orElseOpt (dictGet (titleStep ⟨[], [], none⟩ l).epicTitles n)
        (dictGet st.epicTitles n) := by
  rcases he : matchEpicTitle (pyStrip l) with _ | ⟨m, t⟩
  · rcases hsl : matchStoryLine (pyStrip l) with _ | ⟨e, s2, t⟩ <;>
      simp [titleStep, he, hsl, dictGet, orElseOpt]
  · simp only [titleStep, he]
    rw [dictGet_dictSet, dictGet_dictSet]
    by_cases hm : m = n
    · simp [hm, orElseOpt]
    · simp [hm, orElseOpt, dictGet]

theorem titleStep_story_merge (st : TitleState) (l : Str) (k : Str) :
    dictGet (titleStep st l).storyTitles k =
      orElseOpt (dictGet (titleStep ⟨[], [], none⟩ l).storyTitles k)
        (dictGet st.storyTitles k) := by
  rcases he : matchEpicTitle (pyStrip l) with _ | ⟨m, t⟩
  · rcases hsl : matchStoryLine (pyStrip l) with _ | ⟨e, s2, t⟩
    · simp [titleStep, he, hsl, dictGet, orElseOpt]
    · simp only [titleStep, he, hsl]
      rw [dictGet_dictSet, dictGet_dictSet]
      by_cases hm : natToChars e ++ '-' :: natToChars s2 = k
      · simp [hm, orElseOpt]
      · simp [hm, orElseOpt, dictGet]
  · simp [titleStep, he, dictGet, orElseOpt]

theorem titleLines_epic_merge (ls : List Str) (st : TitleState) (n : Nat) :
    dictGet (ls.foldl titleStep st).epicTitles n =
      orElseOpt (dictGet (ls.foldl titleStep ⟨[], [], none⟩).epicTitles n)
        (dictGet st.epicTitles n) := by
  induction ls generalizing st with
  | nil => simp [orElseOpt, dictGet]
  | cons l rest ih =>
    rw [List.foldl_cons, List.foldl_cons, ih (titleStep st l), ih (titleStep ⟨[], [], none⟩ l)]
    rcases hx : dictGet (rest.foldl titleStep ⟨[], [], none⟩).epicTitles n with _ | y
    · simp only [orElseOpt]
      exact titleStep_epic_merge st l n
    · simp [orElseOpt]

theorem titleLines_story_merge (ls : List Str) (st : TitleState) (k : Str) :
    dictGet (ls.foldl titleStep st).storyTitles k =
      orElseOpt (dictGet (ls.foldl titleStep ⟨[], [], none⟩).storyTitles k)
        (dictGet st.storyTitles k) := by
  induction ls generalizing st with
  | nil => simp [orElseOpt, dictGet]
  | cons l rest ih =>
    rw [List.foldl_cons, List.foldl_cons, ih (titleStep st l), ih (titleStep ⟨[], [], none⟩ l)]
    rcases hx : dictGet (rest.foldl titleStep ⟨[], [], none⟩).storyTitles k with _ | y
    · simp only [orElseOpt]
      exact titleStep_story_merge st l k
    · simp [orElseOpt]

theorem titleDoc_epic_merge (doc : Option Str) (st : TitleState) (n : Nat) :
    dictGet (titleDoc st doc).epicTitles n =
      orElseOpt (dictGet (titleDoc ⟨[], [], none⟩ doc).epicTitles n)
        (dictGet st.epicTitles n) := by
  by_cases h : (read_text doc).isEmpty
  · simp [titleDoc, h, orElseOpt, dictGet]
  · simp only [titleDoc, if_neg h]
    exact titleLines_epic_merge _ _ _

theorem titleDoc_story_merge (doc : Option Str) (st : TitleState) (k : Str) :
    dictGet (titleDoc st doc).storyTitles k =
      orElseOpt (dictGet (titleDoc ⟨[], [], none⟩ doc).storyTitles k)
        (dictGet st.storyTitles k) := by
  by_cases h : (read_text doc).isEmpty
  · simp [titleDoc, h, orElseOpt, dictGet]
  · simp only [titleDoc, if_neg h]
    exact titleLines_story_merge _ _ _

theorem titleDocs_epic_merge (docs : List (Option Str)) (st : TitleState) (n : Nat) :
    dictGet (docs.foldl titleDoc st).epicTitles n =
      orElseOpt (dictGet (docs.foldl titleDoc ⟨[], [], none⟩).epicTitles n)
        (dictGet st.epicTitles n) := by
  induction docs generalizing st with
  | nil => simp [orElseOpt, dictGet]
  | cons doc rest ih =>
    rw [List.foldl_cons, List.foldl_cons, ih (titleDoc st doc), ih (titleDoc ⟨[], [], none⟩ doc)]
    rcases hx : dictGet (rest.foldl titleDoc ⟨[], [], none⟩).epicTitles n with _ | y
    · simp only [orElseOpt]
      exact titleDoc_epic_merge doc st n
    · simp [orElseOpt]

theorem titleDocs_story_merge (docs : List (Option Str)) (st : TitleState) (k : Str) :
    dictGet (docs.foldl titleDoc st).storyTitles k =
      orElseOpt (dictGet (docs.foldl titleDoc ⟨[], [], none⟩).storyTitles k)
        (dictGet st.storyTitles k) := by
  induction docs generalizing st with
  | nil => simp [orElseOpt, dictGet]
  | cons doc rest ih =>
    rw [List.foldl_cons, List.foldl_cons, ih (titleDoc st doc), ih (titleDoc ⟨[], [], none⟩ doc)]
    rcases hx : dictGet (rest.foldl titleDoc ⟨[], [], none⟩).storyTitles k with _ | y
    · simp only [orElseOpt]
      exact titleDoc_story_merge doc st k
    · simp [orElseOpt]

/-! ### Epic titles in the assembled board -/

theorem pass1_epics_closed (outputDir : Str) (fs : FS) (eT : List (Nat × Str))
    (sT : List (Str × Str)) (sts : List (Str × Str)) :
    (pass1 outputDir fs eT sT sts).epics = sts.filterMap (epicOf eT) := by
  rw [pass1, pass1_epics_eq]
  rfl

theorem epicOf_inv (eT : List (Nat × Str)) (kv : Str × Str) (e : EpicEntry)
    (h : epicOf eT kv = some e) :
    e.title = (dictGet eT e.number).getD ("Epic ".toList ++ natToChars e.number) := by
  rcases he : matchEpicKey kv.1 with _ | n
  · simp [epicOf, he] at h
  · simp only [epicOf, he, Option.some.injEq] at h
    subst h
    rfl

theorem epicFold1_title (eT : List (Nat × Str)) (epics : List EpicEntry) :
    ∀ (m : List (Nat × EpicEntry)),
      (∀ q ∈ m, q.2.title = (dictGet eT q.1).getD ("Epic ".toList ++ natToChars q.1)) →
      (∀ e ∈ epics, e.title = (dictGet eT e.number).getD ("Epic ".toList ++ natToChars e.number)) →
      ∀ q ∈ epics.foldl (fun m e => dictSet m e.number e) m,
        q.2.title = (dictGet eT q.1).getD ("Epic ".toList ++ natToChars q.1) := by
  induction epics with
  | nil => exact fun m hm _ q hq => hm q hq
  | cons e rest ih =>
    intro m hm he q hq
    rw [List.foldl_cons] at hq
    refine ih _ ?_ (fun x hx => he x (List.mem_cons_of_mem _ hx)) q hq
    intro q2 hq2
    rcases mem_dictSet _ _ _ _ hq2 with h | h
    · rw [h]
      exact he e (List.mem_cons_self _ _)
    · exact hm q2 h

theorem epicFold2_title (eT : List (Nat × Str)) (stories : List StoryEntry) :
    ∀ (m : List (Nat × EpicEntry)),
      (∀ q ∈ m, q.2.title = (dictGet eT q.1).getD ("Epic ".toList ++ natToChars q.1)) →
      ∀ q ∈ stories.foldl
        (fun m s =>
          match dictGet m s.epic_number with
          | some _ => m
          | none => dictSet m s.epic_number (synthEpic eT s.epic_number)) m,
        q.2.title = (dictGet eT q.1).getD ("Epic ".toList ++ natToChars q.1) := by
  induction stories with
  | nil => exact fun m hm q hq => hm q hq
  | cons s rest ih =>
    intro m hm q hq
    rw [List.foldl_cons] at hq
    rcases hd : dictGet m s.epic_number with _ | x
    · rw [hd] at hq
      refine ih _ ?_ q hq
      intro q2 hq2
      rcases mem_dictSet _ _ _ _ hq2 with h | h
      · rw [h]
        rfl
      · exact hm q2 h
    · rw [hd] at hq
      exact ih _ hm q hq

theorem mem_epicMapOf_title (eT : List (Nat × Str)) (epics : List EpicEntry)
    (stories : List StoryEntry)
    (hepics : ∀ e ∈ epics,
      e.title = (dictGet eT e.number).getD ("Epic ".toList ++ natToChars e.number))
    (p : Nat × EpicEntry) (hp : p ∈ epicMapOf eT epics stories) :
    p.2.title = (dictGet eT p.1).getD ("Epic ".toList ++ natToChars p.1) := by
  refine epicFold2_title eT stories _ ?_ p hp
  exact epicFold1_title eT epics [] (by intro q hq; exact absurd hq (List.not_mem_nil _)) hepics

theorem board_epics_eq (outputDir now : Str) (fs : FS) (statuses : List (Str × Str))
    (eT : List (Nat × Str)) (sT : List (Str × Str)) :
    (assembleBoard outputDir now fs statuses eT sT).epics =
      (((epicMapOf eT (pass1 outputDir fs eT sT statuses).epics
          (storiesCombined outputDir fs eT sT statuses)).insertionSort
          (fun a b => a.1 ≤ b.1)).map
        (mkEpicProgress (storiesCombined outputDir fs eT sT statuses))).insertionSort
        (fun a b => a.number ≤ b.number) := rfl

/-- Claim C2 (amended): every matched epic-heading or story-bullet line
overwrites any prior title for that key, so across documents in caller
order the later document takes precedence on a conflict; and because the
aggregator passes the visualization document first and the epics
document second, on a title conflict the epics document (not the
visualization document) wins in the built board, whose epic titles are
the merged lookup with default Epic n. -/
theorem C2_amended_last_doc_wins :
    (∀ (ds1 ds2 : List (Option Str)) (n : Nat),
      dictGet (parse_epic_and_story_titles (ds1 ++ ds2)).1 n =
        orElseOpt (dictGet (parse_epic_and_story_titles ds2).1 n)
          (dictGet (parse_epic_and_story_titles ds1).1 n)) ∧
    (∀ (ds1 ds2 : List (Option Str)) (k : Str),
      dictGet (parse_epic_and_story_titles (ds1 ++ ds2)).2 k =
        orElseOpt (dictGet (parse_epic_and_story_titles ds2).2 k)
          (dictGet (parse_epic_and_story_titles ds1).2 k)) ∧
    (∀ (outputDir now : Str) (fs : FS),
      ∀ ep ∈ (build_board_data outputDir fs now).epics,
        ep.title = (dictGet (parse_epic_and_story_titles
          [fs.visualContent, fs.epicsContent]).1 ep.number).getD
          ("Epic ".toList ++ natToChars ep.number)) := by
  refine ⟨?_, ?_, ?_⟩
  · intro ds1 ds2 n
    show dictGet ((ds1 ++ ds2).foldl titleDoc ⟨[], [], none⟩).epicTitles n = _
    rw [List.foldl_append]
    exact titleDocs_epic_merge ds2 _ n
  · intro ds1 ds2 k
    show dictGet ((ds1 ++ ds2).foldl titleDoc ⟨[], [], none⟩).storyTitles k = _
    rw [List.foldl_append]
    exact titleDocs_story_merge ds2 _ k
  · intro outputDir now fs ep hep
    rw [build_board_data_eq, board_epics_eq] at hep
    have h1 := (List.perm_insertionSort _ _).mem_iff.1 hep
    obtain ⟨p, hp1, hp2⟩ := List.mem_map.1 h1
    have hp3 := (List.perm_insertionSort _ _).mem_iff.1 hp1
    have htitle := mem_epicMapOf_title _ _ _ ?_ p hp3
    · rw [← hp2]
      exact htitle
    · intro e he
      rw [pass1_epics_closed] at he
      obtain ⟨kv, _, hkv⟩ := List.mem_filterMap.1 he
      exact epicOf_inv _ _ _ hkv

/-- Counterexample to C2 as stated: with the visualization document
declaring Epic 1 as VisTitle and the epics document declaring it as
PlanTitle, the built board shows PlanTitle, not the visualization
document's title. -/
theorem C2_counterexample :
    ((build_board_data "/out".toList
      ⟨true, true, some "development_status:\n  epic-1: done".toList,
        some "### Epic 1: VisTitle".toList, some "### Epic 1: PlanTitle".toList,
        false, []⟩ "now".toList).epics.map (fun e => e.title) =
      ["PlanTitle".toList]) ∧
    ¬ ((build_board_data "/out".toList
      ⟨true, true, some "development_status:\n  epic-1: done".toList,
        some "### Epic 1: VisTitle".toList, some "### Epic 1: PlanTitle".toList,
        false, []⟩ "now".toList).epics.map (fun e => e.title) =
      ["VisTitle".toList]) := by
  exact ⟨by decide, by decide⟩

/-- Witness for C2 (amended): the two-document merge at epic number 1,
and the board epic title equation at the concrete conflicting
filesystem. -/
theorem C2_amended_witness :
    (dictGet (parse_epic_and_story_titles
      ([some "### Epic 1: VisTitle".toList] ++ [some "### Epic 1: PlanTitle".toList])).1 1 =
      orElseOpt
        (dictGet (parse_epic_and_story_titles [some "### Epic 1: PlanTitle".toList]).1 1)
        (dictGet (parse_epic_and_story_titles [some "### Epic 1: VisTitle".toList]).1 1)) ∧
    ((⟨"epic-1".toList, 1, "PlanTitle".toList, "done".toList, 0, 0, 0, 0, 0, 0⟩ :
        EpicProgressEntry).title =
      (dictGet (parse_epic_and_story_titles
        [some "### Epic 1: VisTitle".toList, some "### Epic 1: PlanTitle".toList]).1
        (⟨"epic-1".toList, 1, "PlanTitle".toList, "done".toList, 0, 0, 0, 0, 0, 0⟩ :
          EpicProgressEntry).number).getD
        ("Epic ".toList ++ natToChars (⟨"epic-1".toList, 1, "PlanTitle".toList,
          "done".toList, 0, 0, 0, 0, 0, 0⟩ : EpicProgressEntry).number)) :=
  ⟨C2_amended_last_doc_wins.1 _ _ 1,
   C2_amended_last_doc_wins.2.2 "/out".toList "now".toList
     ⟨true, true, some "development_status:\n  epic-1: done".toList,
       some "### Epic 1: VisTitle".toList, some "### Epic 1: PlanTitle".toList, false, []⟩
     ⟨"epic-1".toList, 1, "PlanTitle".toList, "done".toList, 0, 0, 0, 0, 0, 0⟩
     (by decide)⟩
